import Mathlib

/-!
# midikeeb: the control loop of `main.go`

A shallow embedding of the body of the `for` loop of `main` (lines 151-271 of
`main.go`) together with `getMatrixState` (lines 275-318).

* Package-level variables become the fields of `State`.
* Everything the loop reads from hardware on one iteration (rotary button
  level, the 4x3 matrix, the encoder position, the millisecond clock and the
  values returned by `rand.Uint32`) is an `Input`.
* Everything it hands to the MIDI transport, the LED strip and the display is
  an `Output`.
* Go arrays (`[COLUMNS][ROWS]bool`, `[LAYERS][COLUMNS][ROWS]bool`) are functions
  on indices whose accessors check the index against the array bound; Go slices
  (`colors`, `notes`, `notesMelody`, `btnColors`) are lists whose accessors
  check the index against the length.  A failed check is Go's run-time panic
  and is `none` here, as is an integer division by zero.
* The sleeps, the pin configuration and the drawing calls have no effect on the
  variables and are left out; what is drawn is recorded in the `Output`.

The file has three parts: the definitions (the embedding, then closed forms of what
its loops compute and the concrete inputs used as examples), the lemmas that relate
the two, and the properties of the control loop, one section each.
-/

namespace Midikeeb

/-! ## Constants (lines 24-41) -/

def white : Nat := 0x3F3F3FFF

def red : Nat := 0x00FF00FF

def green : Nat := 0xFF0000FF

def blue : Nat := 0x0000FFFF

def yellow : Nat := 0x88FF00FF

def purple : Nat := 0x800080FF

def pink : Nat := 0x662280FF

def black : Nat := 0x000000FF

def LAYERS : Nat := 3

def ROWS : Nat := 3

def COLUMNS : Nat := 4

def MELODYLAYER : Nat := 2

def MELODYCHANNEL : Nat := 1

def DRUMKITCHANNEL : Nat := 10

/-! ## Tables (lines 78-80) -/

def notes : List Nat := [60, 62, 64, 36, 50, 55, 36, 50, 55]

def notesMelody : List Nat := [53, 60, 67, 55, 62, 69, 57, 64, 71, 59, 65, 72]

def btnColors : List Nat := [red, green, blue, yellow, purple, pink]

/-! ## Machine arithmetic -/

/-- Reduction of an integer to the `int16` range (two's complement). -/
def wrapInt16 (x : Int) : Int := (x + 32768) % 65536 - 32768

/-- Reduction of an integer to the `int64` range (two's complement). -/
def wrapInt64 (x : Int) : Int :=
  (x + 9223372036854775808) % 18446744073709551616 - 9223372036854775808

/-- The `int64` subtraction `a - b`. -/
def sub64 (a b : Int) : Int := wrapInt64 (a - b)

/-- Conversion to `uint8`. -/
def toUint8 (x : Nat) : Nat := x % 256

/-- Conversion to `uint32`. -/
def toUint32 (x : Nat) : Nat := x % 4294967296

/-- The decimal rendering `strconv.Itoa`. -/
def Itoa (n : Int) : String := toString n

/-- Go's integer division: truncated, and a run-time panic on a zero divisor. -/
def goDiv (a b : Int) : Option Int := if b = 0 then none else some (Int.tdiv a b)

/-! ## Data model -/

/-- A call into the MIDI transport: `midi.Midi.NoteOn(cable, channel, note, velocity)`
or `midi.Midi.NoteOff(cable, channel, note, velocity)`. -/
inductive MidiEvent where
  | NoteOn (cable channel note velocity : Nat)
  | NoteOff (cable channel note velocity : Nat)
  deriving DecidableEq, Repr

/-- A `[COLUMNS][ROWS]bool` array. -/
abbrev Grid := Nat → Nat → Bool

/-- A `[LAYERS][COLUMNS][ROWS]bool` array. -/
abbrev Keys := Nat → Nat → Nat → Bool

/-- The package-level variables the loop reads and writes (lines 43-84).
`rotaryNewValue` and `currentTick` are assigned before every use inside one
iteration and are therefore locals of `tick`; `currentLayer`, `displayFrame`,
`row`, `column` and `invertRotaryPins` are never used by the loop. -/
structure State where
  /-- The `uint8` variable `layer`. -/
  layer : Nat
  rotaryPressed : Bool
  /-- The `int` variable `rotaryOldValue`; it is only assigned and compared. -/
  rotaryOldValue : Int
  matrixBtn : Grid
  matrixDebounceBtn : Grid
  /-- The slice `colors` of `uint32` values. -/
  colors : List Nat
  /-- The `int16` variable `frame`. -/
  frame : Int
  keys : Keys
  /-- The `int64` variable `lastTick`. -/
  lastTick : Int
  /-- The `int` variable `sleepBPM`. Its reachable values lie in `[100, 1000]`, so the
  additions and subtractions of 10 never leave the range of `int`, whatever its width. -/
  sleepBPM : Int
  bpm : String

/-- What one iteration reads from the hardware. -/
structure Input where
  /-- The level returned by `rotaryBtn.Get()`; the button is active-low. -/
  rotaryBtn : Bool
  /-- The level `rowPins[r].Get()` sampled while column `c` is driven high. -/
  matrix : Nat → Nat → Bool
  /-- The value returned by `enc.Position()`. -/
  encoder : Int
  /-- The value returned by `time.Now().UnixMilli()`, an `int64`. -/
  now : Int
  /-- The value returned by the call of `rand.Uint32()` made for colour index `k`. -/
  rand : Nat → Nat

/-- What one iteration hands to its sinks. -/
structure Output where
  /-- The `NoteOn` calls of lines 240-246, in call order. -/
  drum : List MidiEvent
  /-- The `NoteOff` and `NoteOn` calls of lines 248-255, in call order. -/
  melody : List MidiEvent
  /-- The buffer passed to `ws.WriteRaw`. -/
  leds : List Nat
  /-- The layer label drawn at lines 258-264. -/
  layerName : String
  /-- The text drawn at line 267. -/
  bpmText : String
  /-- The x coordinate of the rectangle of line 257. -/
  rectX : Int

/-- All MIDI calls of one iteration in call order. -/
def Output.events (o : Output) : List MidiEvent := o.drum ++ o.melody

/-- Twelve black entries: the literal of lines 144-148 and 159-163. -/
def blackBuffer : List Nat :=
  [black, black, black, black, black, black, black, black, black, black, black, black]

/-- The variables as they stand when the loop is entered. -/
def State.init : State where
  layer := 0
  rotaryPressed := false
  rotaryOldValue := 0
  matrixBtn := fun _ _ => false
  matrixDebounceBtn := fun _ _ => false
  colors := blackBuffer
  frame := 0
  keys := fun _ _ _ => false
  lastTick := 0
  sleepBPM := 425
  bpm := "141"

/-! ## Checked accessors -/

/-- The read `g[i][j]` of a `[COLUMNS][ROWS]bool` array. -/
def getGrid (g : Grid) (i j : Nat) : Option Bool :=
  if i < COLUMNS ∧ j < ROWS then some (g i j) else none

/-- The array `g` with entry `[i][j]` replaced by `v`. -/
def updGrid (g : Grid) (i j : Nat) (v : Bool) : Grid :=
  fun a b => if a = i ∧ b = j then v else g a b

/-- The array `k` with entry `[l][i][j]` replaced by `v`. -/
def updKeys (k : Keys) (l i j : Nat) (v : Bool) : Keys :=
  fun a b c => if a = l ∧ b = i ∧ c = j then v else k a b c

/-- The write `g[i][j] = v`. -/
def setGrid (g : Grid) (i j : Nat) (v : Bool) : Option Grid :=
  if i < COLUMNS ∧ j < ROWS then some (updGrid g i j v) else none

/-- The read `k[l][i][j]` of a `[LAYERS][COLUMNS][ROWS]bool` array. -/
def getKey (k : Keys) (l i j : Nat) : Option Bool :=
  if l < LAYERS ∧ i < COLUMNS ∧ j < ROWS then some (k l i j) else none

/-- The write `k[l][i][j] = v`. -/
def setKey (k : Keys) (l i j : Nat) (v : Bool) : Option Keys :=
  if l < LAYERS ∧ i < COLUMNS ∧ j < ROWS then some (updKeys k l i j v) else none

/-- The write `cs[k] = v` into a slice. -/
def setColor (cs : List Nat) (k v : Nat) : Option (List Nat) :=
  if k < cs.length then some (cs.set k v) else none

/-- The index of an `int16` into an array of length `n`. -/
def indexOfInt (x : Int) (n : Nat) : Option Nat :=
  if 0 ≤ x ∧ x < n then some x.toNat else none

/-! ## Loops -/

/-- Runs a fallible loop body over a list of loop indices, threading the state. -/
def loopM {σ ι : Type} (body : σ → ι → Option σ) : List ι → σ → Option σ
  | [], s => some s
  | x :: xs, s =>
    match body s x with
    | none => none
    | some s' => loopM body xs s'

/-- The `(i, j)` pairs in the order of `for j < ROWS { for i < COLUMNS { .. } }`. -/
def cellOrder : List (Nat × Nat) :=
  (List.range ROWS).flatMap fun j => (List.range COLUMNS).map fun i => (i, j)

/-- The `(l, r)` pairs in the order of `for l < LAYERS-1 { for r < ROWS { .. } }`. -/
def drumOrder : List (Nat × Nat) :=
  (List.range (LAYERS - 1)).flatMap fun l => (List.range ROWS).map fun r => (l, r)

/-! ## The iteration, phase by phase -/

/-- The body of the repopulation loop, lines 166-168. -/
def repopStep (s : State) (ij : Nat × Nat) : Option State := do
  let k ← getKey s.keys s.layer ij.1 ij.2
  if k then
    let p ← btnColors[toUint8 (s.layer * 3 + toUint8 ij.2)]?
    let cs ← setColor s.colors (ij.1 * ROWS + ij.2) (toUint32 p)
    some { s with colors := cs }
  else
    some s

/-- Lines 153-175: the rotary push button, edge-latched by `rotaryPressed`. -/
def layerSwitch (s : State) (rotaryBtn : Bool) : Option State :=
  if !rotaryBtn then
    if !s.rotaryPressed then do
      let l1 := toUint8 (s.layer + 1)
      let l := if l1 ≥ LAYERS then 0 else l1
      let s1 := { s with layer := l, colors := blackBuffer }
      let s2 ← loopM repopStep cellOrder s1
      some { s2 with rotaryPressed := true }
    else
      some { s with rotaryPressed := true }
  else
    some { s with rotaryPressed := false }

/-- The function `getMatrixState`, lines 275-318: the twelve assignments
`matrixBtn[c][r] = rowPins[r].Get()` with constant indices. -/
def getMatrixState (s : State) (pins : Nat → Nat → Bool) : State :=
  { s with matrixBtn := fun c r => if c < COLUMNS ∧ r < ROWS then pins c r else s.matrixBtn c r }

/-- Lines 178-193: the encoder. -/
def encoderStep (s : State) (rotaryNewValue : Int) : Option State :=
  if rotaryNewValue ≠ s.rotaryOldValue then
    if rotaryNewValue < s.rotaryOldValue then do
      let sl := s.sleepBPM + 10
      let sl := if sl > 1000 then 1000 else sl
      let q ← goDiv 60000 sl
      some { s with sleepBPM := sl, bpm := Itoa q, rotaryOldValue := rotaryNewValue }
    else do
      let sl := s.sleepBPM - 10
      let sl := if sl < 100 then 100 else sl
      let q ← goDiv 60000 sl
      some { s with sleepBPM := sl, bpm := Itoa q, rotaryOldValue := rotaryNewValue }
  else
    some s

/-- Lines 199-202: the attenuation of a packed colour. -/
def decay (c : Nat) : Nat :=
  let g := ((c &&& 0xFF000000) >>> 1) &&& 0xFF000000
  let r := ((c &&& 0x00FF0000) >>> 1) &&& 0x00FF0000
  let b := ((c &&& 0x0000FF00) >>> 1) &&& 0x0000FF00
  g ||| r ||| b ||| 0xFF

/-- The body of the cell loop, lines 197-228. -/
def cellStep (rand : Nat → Nat) (s : State) (ij : Nat × Nat) : Option State :=
  let i := ij.1
  let j := ij.2
  if s.layer = MELODYLAYER then do
    let c ← s.colors[i * ROWS + j]?
    let colors1 ← setColor s.colors (i * ROWS + j) (decay c)
    let keys1 ← setKey s.keys MELODYLAYER i j false
    let m ← getGrid s.matrixBtn i j
    if m then
      let d ← getGrid s.matrixDebounceBtn i j
      if !d then
        let colors2 ← setColor colors1 (i * ROWS + j) (toUint32 (rand (i * ROWS + j)))
        let deb ← setGrid s.matrixDebounceBtn i j true
        let keys2 ← setKey keys1 MELODYLAYER i j true
        some { s with colors := colors2, matrixDebounceBtn := deb, keys := keys2 }
      else
        some { s with colors := colors1, keys := keys1 }
    else
      let deb ← setGrid s.matrixDebounceBtn i j false
      some { s with colors := colors1, matrixDebounceBtn := deb, keys := keys1 }
  else do
    let m ← getGrid s.matrixBtn i j
    if m then
      let d ← getGrid s.matrixDebounceBtn i j
      if !d then
        let deb ← setGrid s.matrixDebounceBtn i j true
        let k ← getKey s.keys s.layer i j
        let colors1 ←
          if k then setColor s.colors (i * ROWS + j) black
          else do
            let p ← btnColors[toUint8 (s.layer * 3 + toUint8 j)]?
            setColor s.colors (i * ROWS + j) (toUint32 p)
        let k2 ← getKey s.keys s.layer i j
        let keys1 ← setKey s.keys s.layer i j (!k2)
        some { s with colors := colors1, matrixDebounceBtn := deb, keys := keys1 }
      else
        some s
    else
      let deb ← setGrid s.matrixDebounceBtn i j false
      some { s with matrixDebounceBtn := deb }

/-- Lines 195-230: the pass over the twelve cells. -/
def cellPass (s : State) (rand : Nat → Nat) : Option State :=
  loopM (cellStep rand) cellOrder s

/-- The body of the drum loop, lines 242-244, at frame index `f`. -/
def drumStep (s : State) (evs : List MidiEvent) (lr : Nat × Nat) : Option (List MidiEvent) := do
  let f ← indexOfInt s.frame COLUMNS
  let k ← getKey s.keys lr.1 f lr.2
  if k then
    let n ← notes[toUint8 (3 * lr.1 + lr.2)]?
    some (evs ++ [MidiEvent.NoteOn 0 DRUMKITCHANNEL n 64])
  else
    some evs

/-- Lines 232-247: the sequencer clock and the drum notes. -/
def sequencerStep (s : State) (currentTick : Int) : Option (State × List MidiEvent) :=
  if sub64 currentTick s.lastTick ≥ s.sleepBPM then do
    let f := wrapInt16 (s.frame + 1)
    let f := if f ≥ 4 then 0 else f
    let s1 := { s with frame := f, lastTick := currentTick }
    let evs ← loopM (drumStep s1) drumOrder []
    some (s1, evs)
  else
    some (s, [])

/-- The body of the melody loop, lines 250-253. -/
def melodyBody (s : State) (evs : List MidiEvent) (ij : Nat × Nat) : Option (List MidiEvent) := do
  let k ← getKey s.keys MELODYLAYER ij.1 ij.2
  if k then
    let n ← notesMelody[3 * ij.1 + ij.2]?
    some (evs ++ [MidiEvent.NoteOff 0 MELODYCHANNEL n 64, MidiEvent.NoteOn 0 MELODYCHANNEL n 64])
  else
    some evs

/-- Lines 248-255: the melody notes. -/
def melodyStep (s : State) : Option (List MidiEvent) :=
  loopM (melodyBody s) cellOrder []

/-- Lines 258-264: the label of the active layer. -/
def layerLabel (l : Nat) : String :=
  if l = 0 then "CONGA" else if l = 1 then "DRUMKIT" else "MELODY"

/-- One iteration of the loop, lines 152-270. -/
def tick (s : State) (inp : Input) : Option (State × Output) := do
  let s1 ← layerSwitch s inp.rotaryBtn
  let s2 := getMatrixState s1 inp.matrix
  let s3 ← encoderStep s2 inp.encoder
  let s4 ← cellPass s3 inp.rand
  let (s5, drum) ← sequencerStep s4 inp.now
  let melody ← melodyStep s5
  some (s5, { drum := drum, melody := melody, leds := s5.colors,
              layerName := layerLabel s5.layer, bpmText := s5.bpm ++ " BPM",
              rectX := wrapInt16 (32 * s5.frame) })

/-! ## Runs -/

/-- One completed iteration: the state before, the input, the state after and the output. -/
structure Step where
  pre : State
  inp : Input
  post : State
  out : Output

/-- Consecutive iterations on a list of inputs; `none` when one of them panics. -/
def run : State → List Input → Option (List Step)
  | _, [] => some []
  | s, inp :: rest =>
    match tick s inp with
    | none => none
    | some (s', o) =>
      match run s' rest with
      | none => none
      | some tr => some (⟨s, inp, s', o⟩ :: tr)

/-- The state after the last iteration of a run. -/
def finalState (s : State) : List Step → State
  | [] => s
  | st :: tr => finalState st.post tr

/-- The states the loop can be in at the top of an iteration. -/
inductive Reachable : State → Prop where
  | init : Reachable State.init
  | step {s s' : State} {inp : Input} {o : Output} :
      Reachable s → tick s inp = some (s', o) → Reachable s'

/-! ## Closed forms of the phases

These definitions describe, cell by cell, what the loops above compute; the theorems
of the next part prove that they do. -/

/-- The guard of the new-press branch (lines 205-206 and 215-216) for cell `(c, r)`. -/
def newPress (s : State) (c r : Nat) : Bool := s.matrixBtn c r && !s.matrixDebounceBtn c r

/-- The value of `keys[l][c][r]` after the body of the cell loop has run for `(c, r)`. -/
def keyAfter (s : State) (l c r : Nat) : Bool :=
  if l = s.layer then
    if s.layer = MELODYLAYER then newPress s c r else (s.keys l c r != newPress s c r)
  else s.keys l c r

/-- The value of `colors[c*ROWS+r]` after the body of the cell loop has run for `(c, r)`,
`old` being the value before. -/
def colorAfter (rand : Nat → Nat) (s : State) (c r old : Nat) : Nat :=
  if s.layer = MELODYLAYER then
    if newPress s c r then toUint32 (rand (c * ROWS + r)) else decay old
  else if newPress s c r then
    if s.keys s.layer c r then black else toUint32 (btnColors.getD (s.layer * 3 + r) 0)
  else old

/-- The state `s'` is `s` after the body of the cell loop has run for the cells of `cs`. -/
structure Eff (rand : Nat → Nat) (cs : List (Nat × Nat)) (s s' : State) : Prop where
  layer : s'.layer = s.layer
  rotaryPressed : s'.rotaryPressed = s.rotaryPressed
  rotaryOldValue : s'.rotaryOldValue = s.rotaryOldValue
  matrixBtn : s'.matrixBtn = s.matrixBtn
  frame : s'.frame = s.frame
  lastTick : s'.lastTick = s.lastTick
  sleepBPM : s'.sleepBPM = s.sleepBPM
  bpm : s'.bpm = s.bpm
  len : s'.colors.length = s.colors.length
  deb : ∀ c r, c < COLUMNS → r < ROWS →
    s'.matrixDebounceBtn c r = if (c, r) ∈ cs then s.matrixBtn c r else s.matrixDebounceBtn c r
  keys : ∀ l c r, c < COLUMNS → r < ROWS →
    s'.keys l c r = if (c, r) ∈ cs then keyAfter s l c r else s.keys l c r
  colors : ∀ c r, c < COLUMNS → r < ROWS →
    s'.colors[c * ROWS + r]? =
      if (c, r) ∈ cs then (s.colors[c * ROWS + r]?).map (colorAfter rand s c r)
      else s.colors[c * ROWS + r]?

/-- The state `s'` is `s` after the whole cell pass. -/
structure CellPassed (rand : Nat → Nat) (s s' : State) : Prop where
  layer : s'.layer = s.layer
  rotaryPressed : s'.rotaryPressed = s.rotaryPressed
  rotaryOldValue : s'.rotaryOldValue = s.rotaryOldValue
  matrixBtn : s'.matrixBtn = s.matrixBtn
  frame : s'.frame = s.frame
  lastTick : s'.lastTick = s.lastTick
  sleepBPM : s'.sleepBPM = s.sleepBPM
  bpm : s'.bpm = s.bpm
  len : s'.colors.length = s.colors.length
  deb : ∀ c r, c < COLUMNS → r < ROWS → s'.matrixDebounceBtn c r = s.matrixBtn c r
  keys : ∀ l c r, c < COLUMNS → r < ROWS → s'.keys l c r = keyAfter s l c r
  colors : ∀ c r, c < COLUMNS → r < ROWS →
    s'.colors[c * ROWS + r]? = (s.colors[c * ROWS + r]?).map (colorAfter rand s c r)

/-- The state `s'` differs from `s` in the entries of `colors` only. -/
structure ColorsOnly (s s' : State) : Prop where
  layer : s'.layer = s.layer
  rotaryPressed : s'.rotaryPressed = s.rotaryPressed
  rotaryOldValue : s'.rotaryOldValue = s.rotaryOldValue
  matrixBtn : s'.matrixBtn = s.matrixBtn
  matrixDebounceBtn : s'.matrixDebounceBtn = s.matrixDebounceBtn
  frame : s'.frame = s.frame
  keys : s'.keys = s.keys
  lastTick : s'.lastTick = s.lastTick
  sleepBPM : s'.sleepBPM = s.sleepBPM
  bpm : s'.bpm = s.bpm
  len : s'.colors.length = s.colors.length

/-- The rotary button reads pressed while its latch is clear. -/
def pressEdge (s : State) (rotaryBtn : Bool) : Bool := !rotaryBtn && !s.rotaryPressed

/-- The step interval after the encoder has been read. -/
def sleepAfter (sleepBPM rotaryOldValue rotaryNewValue : Int) : Int :=
  if rotaryNewValue = rotaryOldValue then sleepBPM
  else if rotaryNewValue < rotaryOldValue then min 1000 (sleepBPM + 10)
  else max 100 (sleepBPM - 10)

/-- The drum calls of one advance at frame index `f`: the loop of lines 240-246 in closed form. -/
def drumEvents (k : Keys) (f : Nat) : List MidiEvent :=
  drumOrder.flatMap fun lr =>
    if k lr.1 f lr.2 then [MidiEvent.NoteOn 0 DRUMKITCHANNEL (notes.getD (3 * lr.1 + lr.2) 0) 64]
    else []

/-- The melody calls of one iteration: the loop of lines 248-255 in closed form. -/
def melodyEvents (k : Keys) : List MidiEvent :=
  cellOrder.flatMap fun ij =>
    if k MELODYLAYER ij.1 ij.2 then
      [MidiEvent.NoteOff 0 MELODYCHANNEL (notesMelody.getD (3 * ij.1 + ij.2) 0) 64,
       MidiEvent.NoteOn 0 MELODYCHANNEL (notesMelody.getD (3 * ij.1 + ij.2) 0) 64]
    else []

/-- The sequencer clock advances on this reading. -/
def advances (s : State) (currentTick : Int) : Bool :=
  decide (sub64 currentTick s.lastTick ≥ s.sleepBPM)

/-- The invariant of the loop: what every state at the top of an iteration satisfies. -/
structure WF (s : State) : Prop where
  layer_lt : s.layer < LAYERS
  colors_len : s.colors.length = 12
  frame_nonneg : 0 ≤ s.frame
  frame_lt : s.frame < 4
  sleep_ge : 100 ≤ s.sleepBPM
  sleep_le : s.sleepBPM ≤ 1000
  bpm_eq : s.bpm = Itoa (Int.tdiv 60000 s.sleepBPM)

/-- The cell `(c, r)` reads pressed on input `inp` while its latch in `s` is clear: the guard
of the new-press branch (lines 205-206 and 215-216) as the cell pass of the iteration
started in `s` evaluates it. -/
def pressed (s : State) (inp : Input) (c r : Nat) : Bool :=
  inp.matrix c r && !s.matrixDebounceBtn c r

/-- The colour of cell `(c, r)` after the cell pass on layer `l`, `old` being its colour
after the layer-switch step. -/
def tickColor (s : State) (inp : Input) (l c r old : Nat) : Nat :=
  if l = MELODYLAYER then
    if pressed s inp c r then toUint32 (inp.rand (c * ROWS + r)) else decay old
  else if pressed s inp c r then
    if s.keys l c r then black else toUint32 (btnColors.getD (l * 3 + r) 0)
  else old

/-- What a completed iteration from `s` on `inp` has done: `s'` is the state after it and
`out` its output. -/
structure Ticked (s : State) (inp : Input) (s' : State) (out : Output) : Prop where
  wf : WF s'
  layer : s'.layer = if pressEdge s inp.rotaryBtn then (s.layer + 1) % 3 else s.layer
  rotaryPressed : s'.rotaryPressed = !inp.rotaryBtn
  rotaryOldValue : s'.rotaryOldValue = inp.encoder
  sleepBPM : s'.sleepBPM = sleepAfter s.sleepBPM s.rotaryOldValue inp.encoder
  matrixBtn : ∀ c r, c < COLUMNS → r < ROWS → s'.matrixBtn c r = inp.matrix c r
  deb : ∀ c r, c < COLUMNS → r < ROWS → s'.matrixDebounceBtn c r = inp.matrix c r
  keys : ∀ l c r, c < COLUMNS → r < ROWS →
    s'.keys l c r =
      if l = s'.layer then
        if l = MELODYLAYER then pressed s inp c r else (s.keys l c r != pressed s inp c r)
      else s.keys l c r
  frame : s'.frame =
    if sub64 inp.now s.lastTick ≥ s'.sleepBPM then (s.frame + 1) % 4 else s.frame
  lastTick : s'.lastTick =
    if sub64 inp.now s.lastTick ≥ s'.sleepBPM then inp.now else s.lastTick
  drum : out.drum =
    if sub64 inp.now s.lastTick ≥ s'.sleepBPM then drumEvents s'.keys s'.frame.toNat else []
  melody : out.melody = melodyEvents s'.keys
  leds : out.leds = s'.colors
  colors : ∀ s1, layerSwitch s inp.rotaryBtn = some s1 → ∀ c r, c < COLUMNS → r < ROWS →
    s'.colors[c * ROWS + r]? = (s1.colors[c * ROWS + r]?).map (tickColor s inp s'.layer c r)

/-! ## Completed iterations and concrete inputs -/

/-- An output with no calls, used as a default. -/
def Output.silent : Output := ⟨[], [], [], "", "", 0⟩

/-- The result of an iteration, for iterations that complete (the state unchanged and no
output stand in for a panic). -/
def tickD (s : State) (inp : Input) : State × Output := (tick s inp).getD (s, Output.silent)

/-- The steps of a run, for runs that complete (the empty list stands in for a panic). -/
def runD (s : State) (inps : List Input) : List Step := (run s inps).getD []

/-- Nothing is touched: button released, no pad down, encoder at 0, clock at 0. -/
def idle : Input :=
  { rotaryBtn := true, matrix := fun _ _ => false, encoder := 0, now := 0, rand := fun _ => 0 }

/-- The rotary button is down (its pin reads low). -/
def rotaryDown : Input := { idle with rotaryBtn := false }

/-- The pad `(c, r)` is down. -/
def padDown (c r : Nat) : Input := { idle with matrix := fun a b => decide (a = c ∧ b = r) }

/-- The encoder reads `pos`. -/
def turned (pos : Int) : Input := { idle with encoder := pos }

/-- The clock reads `t`. -/
def clockAt (t : Int) : Input := { idle with now := t }

/-- The note of a MIDI call. -/
def MidiEvent.note : MidiEvent → Nat
  | .NoteOn _ _ n _ => n
  | .NoteOff _ _ n _ => n

/-- A `NoteOff` immediately followed by a `NoteOn` for pitch `p` on the melody channel. -/
def melodyPair (p : Nat) : List MidiEvent :=
  [MidiEvent.NoteOff 0 MELODYCHANNEL p 64, MidiEvent.NoteOn 0 MELODYCHANNEL p 64]

/-- The calls of a list that carry pitch `p`, in order. -/
def callsFor (p : Nat) (evs : List MidiEvent) : List MidiEvent :=
  evs.filter fun e => e.note == p

/-- The pitch `melodyNoteTable[3*col+row]`. -/
def melodyPitch (c r : Nat) : Nat := notesMelody.getD (3 * c + r) 0

/-- The state reached from the initial one by pressing and releasing the rotary button
twice: the melody layer is active. -/
def melodyState : State :=
  finalState State.init (runD State.init [rotaryDown, idle, rotaryDown, idle])

/-- The inputs that lead from the initial state to a stale melody flag: two presses of the
rotary button reach the melody layer, pad `(0, 0)` is struck there, and on the very next
iteration the pad is up again and the rotary button is down. -/
def staleFlagInputs : List Input :=
  [rotaryDown, idle, rotaryDown, padDown 0 0, rotaryDown]

/-- The state after `staleFlagInputs`: layer 0 is active and `keys[2][0][0]` is still set. -/
def staleFlagState : State := finalState State.init (runD State.init staleFlagInputs)

/-- Three presses of the rotary button, each followed by a release, no pad down. -/
def threePresses : List Input := [idle, rotaryDown, idle, rotaryDown, idle, rotaryDown, idle]

/-- The drum calls of an advance to frame `f` as the specification words them: for layer
`l` in (0, 1) then row `r` in (0, 1, 2), a `NoteOn` on channel 10 with pitch
`drumNoteTable[3*l+r]` and velocity 64 whenever `ToggleState[l][f][r]` is true. -/
def drumSpec (toggle : Nat → Nat → Nat → Bool) (f : Nat) : List MidiEvent :=
  [(0, 0), (0, 1), (0, 2), (1, 0), (1, 1), (1, 2)].filterMap fun (lr : Nat × Nat) =>
    if toggle lr.1 f lr.2 then some (MidiEvent.NoteOn 0 10 (notes.getD (3 * lr.1 + lr.2) 0) 64)
    else none

/-- The state after pad `(1, 2)` has been struck on layer 0. -/
def congaState : State := finalState State.init (runD State.init [padDown 1 2])

/-! ## Colours, the melody calls as specified, further example states -/

/-- Byte `k` of a packed colour, byte 0 being the least significant. -/
def byteOf (c k : Nat) : Nat := c / 256 ^ k % 256

/-- The palette entry `paletteColor(k)`: `btnColors[k]`. -/
def paletteColor (k : Nat) : Nat := btnColors.getD k 0

/-- The colour the sequencer policy gives cell `(c, r)` of layer `l`: its palette colour
when the toggle is set, black otherwise. -/
def seqColor (k : Keys) (l c r : Nat) : Nat :=
  if k l c r then paletteColor (l * 3 + r) else black

/-- On a sequencer layer the colour buffer shows the toggle grid of the active layer. -/
def ColorsShowGrid (s : State) : Prop :=
  s.layer < 2 → ∀ c r, c < COLUMNS → r < ROWS →
    s.colors[c * ROWS + r]? = some (seqColor s.keys s.layer c r)

/-- The melody calls as the specification words them: for each cell, row by row and
within a row column by column, whose flag is true, a `NoteOff` immediately followed by a
`NoteOn`, both on channel 1 with pitch `melodyNoteTable[3*col+row]` and velocity 64. -/
def melodySpec (flag : Nat → Nat → Bool) : List MidiEvent :=
  [(0, 0), (1, 0), (2, 0), (3, 0), (0, 1), (1, 1), (2, 1), (3, 1),
   (0, 2), (1, 2), (2, 2), (3, 2)].flatMap fun (cr : Nat × Nat) =>
    if flag cr.1 cr.2 then
      [MidiEvent.NoteOff 0 1 (notesMelody.getD (3 * cr.1 + cr.2) 0) 64,
       MidiEvent.NoteOn 0 1 (notesMelody.getD (3 * cr.1 + cr.2) 0) 64]
    else []

/-- The state after pad `(1, 2)` has been struck on layer 0 and the rotary button has then
been pressed twice: the melody layer is active and cell `(1, 2)` of layer 0 is on. -/
def congaMelodyState : State :=
  finalState State.init (runD State.init [padDown 1 2, rotaryDown, idle, rotaryDown, idle])

/-- No iteration of a run has a press edge of the rotary button (the button reads up, or
reads down while its latch is set), `latch` being `rotaryPressed` before the first. -/
def noPressEdge : Bool → List Input → Bool
  | _, [] => true
  | latch, inp :: rest => (inp.rotaryBtn || latch) && noPressEdge (!inp.rotaryBtn) rest

/-- The state reached from the initial one by pressing the rotary button, releasing it and
pressing it again: the melody layer is active and the button is still down. -/
def melodyHeldState : State :=
  finalState State.init (runD State.init [rotaryDown, idle, rotaryDown])

/-- Two states differ at most in the active layer, the colour buffer and the melody flags:
every other variable is the same in both, and so is every toggle of layers 0 and 1. -/
structure DifferOnlyInLayerView (a b : State) : Prop where
  rotaryPressed : a.rotaryPressed = b.rotaryPressed
  rotaryOldValue : a.rotaryOldValue = b.rotaryOldValue
  matrixBtn : ∀ c < COLUMNS, ∀ r < ROWS, a.matrixBtn c r = b.matrixBtn c r
  matrixDebounceBtn : ∀ c < COLUMNS, ∀ r < ROWS,
    a.matrixDebounceBtn c r = b.matrixDebounceBtn c r
  frame : a.frame = b.frame
  keys : ∀ l < 2, ∀ c < COLUMNS, ∀ r < ROWS, a.keys l c r = b.keys l c r
  lastTick : a.lastTick = b.lastTick
  sleepBPM : a.sleepBPM = b.sleepBPM
  bpm : a.bpm = b.bpm

/-- The state after pad `(1, 2)` has been struck on layer 0 and released. -/
def congaIdleState : State := finalState State.init (runD State.init [padDown 1 2, idle])

/-! ## Loop orders and accessors -/

theorem cellOrder_eq : cellOrder =
    [(0,0),(1,0),(2,0),(3,0),(0,1),(1,1),(2,1),(3,1),(0,2),(1,2),(2,2),(3,2)] := by decide

theorem drumOrder_eq : drumOrder = [(0,0),(0,1),(0,2),(1,0),(1,1),(1,2)] := by decide

theorem mem_cellOrder (i j : Nat) : (i, j) ∈ cellOrder ↔ i < COLUMNS ∧ j < ROWS := by
  simp only [cellOrder_eq, COLUMNS, ROWS, List.mem_cons, Prod.mk.injEq, List.mem_singleton,
    List.not_mem_nil, or_false]
  omega

theorem cellOrder_nodup : cellOrder.Nodup := by
  rw [cellOrder_eq]; decide

theorem getGrid_eq (g : Grid) {i j : Nat} (hi : i < COLUMNS) (hj : j < ROWS) :
    getGrid g i j = some (g i j) := by simp [getGrid, hi, hj]

theorem setGrid_eq (g : Grid) {i j : Nat} (v : Bool) (hi : i < COLUMNS) (hj : j < ROWS) :
    setGrid g i j v = some (updGrid g i j v) := by
  simp [setGrid, hi, hj]

theorem getKey_eq (k : Keys) {l i j : Nat} (hl : l < LAYERS) (hi : i < COLUMNS) (hj : j < ROWS) :
    getKey k l i j = some (k l i j) := by simp [getKey, hl, hi, hj]

theorem setKey_eq (k : Keys) {l i j : Nat} (v : Bool) (hl : l < LAYERS) (hi : i < COLUMNS)
    (hj : j < ROWS) :
    setKey k l i j v = some (updKeys k l i j v) := by
  simp [setKey, hl, hi, hj]

theorem setColor_eq (cs : List Nat) {k : Nat} (v : Nat) (hk : k < cs.length) :
    setColor cs k v = some (cs.set k v) := by simp [setColor, hk]

theorem loopM_append {ι ε : Type} (body : List ε → ι → Option (List ε)) (g : ι → List ε)
    (cs : List ι) (h : ∀ x ∈ cs, ∀ evs, body evs x = some (evs ++ g x)) (evs : List ε) :
    loopM body cs evs = some (evs ++ cs.flatMap g) := by
  induction cs generalizing evs with
  | nil => simp [loopM]
  | cons x xs ih =>
    have hx := h x (List.mem_cons_self _ _) evs
    simp only [loopM, hx]
    rw [ih (fun y hy => h y (List.mem_cons_of_mem _ hy))]
    simp [List.flatMap_cons, List.append_assoc]

theorem loopM_rel {σ ι : Type} (body : σ → ι → Option σ) (R : σ → σ → Prop)
    (hrefl : ∀ s, R s s) (htrans : ∀ a b c, R a b → R b c → R a c)
    (hstep : ∀ s x s', body s x = some s' → R s s') :
    ∀ (cs : List ι) (s s' : σ), loopM body cs s = some s' → R s s' := by
  intro cs
  induction cs with
  | nil => intro s s' h; simp [loopM] at h; subst h; exact hrefl _
  | cons x xs ih =>
    intro s s' h
    simp only [loopM] at h
    cases hb : body s x with
    | none => simp [hb] at h
    | some s1 =>
      simp only [hb] at h
      exact htrans _ _ _ (hstep _ _ _ hb) (ih _ _ h)

/-! ## The cell pass, cell by cell -/

theorem palette_eq {l r : Nat} (hl : l < 2) (hr : r < ROWS) :
    btnColors[toUint8 (l * 3 + toUint8 r)]? = some (btnColors.getD (l * 3 + r) 0) := by
  simp only [ROWS] at hr
  have h1 : l = 0 ∨ l = 1 := by omega
  have h2 : r = 0 ∨ r = 1 ∨ r = 2 := by omega
  rcases h1 with rfl | rfl <;> rcases h2 with rfl | rfl | rfl <;> decide

theorem cellStep_eff (rand : Nat → Nat) (s : State) (i j : Nat) (hi : i < COLUMNS) (hj : j < ROWS)
    (hl : s.layer < LAYERS) (hlen : s.colors.length = 12) :
    ∃ s1, cellStep rand s (i, j) = some s1 ∧ Eff rand [(i, j)] s s1 := by
  have hidx : i * ROWS + j < s.colors.length := by
    simp only [COLUMNS, ROWS] at *; omega
  have hget : s.colors[i * ROWS + j]? = some (s.colors[i * ROWS + j]) := List.getElem?_eq_getElem hidx
  have hinj : ∀ c r, r < ROWS → (i * ROWS + j = c * ROWS + r ↔ c = i ∧ r = j) := by
    intro c r hr; simp only [ROWS] at *; omega
  by_cases hm : s.layer = MELODYLAYER
  · cases hb : s.matrixBtn i j <;> cases hd : s.matrixDebounceBtn i j
    all_goals
      refine ⟨_, by simp [cellStep, hm, hget, setColor_eq, hidx, setKey_eq, getGrid_eq, setGrid_eq, hi, hj, hb, hd, MELODYLAYER, LAYERS]; rfl, ?_⟩
    all_goals
      constructor
    all_goals first
      | rfl
      | exact hm.symm
      | (simp [List.length_set]; done)
      | skip
    all_goals first
      | (intro c r hc hr
         by_cases h : c = i ∧ r = j
         · obtain ⟨rfl, rfl⟩ := h
           simp [updGrid, hb, hd, colorAfter, newPress, hm, List.getElem?_set, hget, hidx, MELODYLAYER]
         · have h' : ¬ (i * ROWS + j = c * ROWS + r) := by rw [hinj c r hr]; exact h
           simp [updGrid, h, h', hb, hd, List.getElem?_set])
      | (intro l c r hc hr
         by_cases h : c = i ∧ r = j
         · obtain ⟨rfl, rfl⟩ := h
           by_cases h2 : l = 2 <;> simp [updKeys, h2, hb, hd, keyAfter, newPress, hm, MELODYLAYER]
         · simp [updKeys, h, keyAfter, newPress, hm, MELODYLAYER])
  · have hl2 : s.layer < 2 := by simp only [LAYERS, MELODYLAYER] at *; omega
    have hpal := palette_eq (l := s.layer) (r := j) hl2 hj
    cases hb : s.matrixBtn i j <;> cases hd : s.matrixDebounceBtn i j <;>
      cases hk : s.keys s.layer i j
    all_goals
      refine ⟨_, by simp [cellStep, hm, hget, setColor_eq, hidx, getKey_eq, setKey_eq, getGrid_eq, setGrid_eq, hi, hj, hl, hb, hd, hk, hpal]; rfl, ?_⟩
    all_goals
      constructor
    all_goals first
      | rfl
      | (simp [List.length_set]; done)
      | skip
    all_goals first
      | (intro c r hc hr
         by_cases h : c = i ∧ r = j
         · obtain ⟨rfl, rfl⟩ := h
           simp [updGrid, hb, hd, hk, colorAfter, newPress, hm, List.getElem?_set, hget, hidx]
         · have h' : ¬ (i * ROWS + j = c * ROWS + r) := by rw [hinj c r hr]; exact h
           simp [updGrid, h, h', hb, hd, List.getElem?_set])
      | (intro l c r hc hr
         by_cases h : c = i ∧ r = j
         · obtain ⟨rfl, rfl⟩ := h
           by_cases h2 : l = s.layer
           · subst h2; simp [updKeys, hb, hd, hk, keyAfter, newPress, hm]
           · simp [updKeys, h2, hb, hd, keyAfter, newPress, hm]
         · simp [updKeys, h, keyAfter, newPress, hm])

theorem Eff.nil (rand : Nat → Nat) (s : State) : Eff rand [] s s := by
  constructor <;> first | rfl | (intros; simp)

theorem Eff.cons {rand : Nat → Nat} {x : Nat × Nat} {rest : List (Nat × Nat)} {s s1 s' : State}
    (h1 : Eff rand [x] s s1) (h2 : Eff rand rest s1 s') (hx : x ∉ rest) :
    Eff rand (x :: rest) s s' := by
  have hnp : ∀ c r, c < COLUMNS → r < ROWS → (c, r) ≠ x → newPress s1 c r = newPress s c r := by
    intro c r hc hr hne
    have := h1.deb c r hc hr
    simp only [List.mem_singleton, hne, if_false] at this
    simp [newPress, h1.matrixBtn, this]
  have hk : ∀ l c r, c < COLUMNS → r < ROWS → (c, r) ≠ x → s1.keys l c r = s.keys l c r := by
    intro l c r hc hr hne
    have := h1.keys l c r hc hr
    simpa only [List.mem_singleton, hne, if_false] using this
  constructor
  · rw [h2.layer, h1.layer]
  · rw [h2.rotaryPressed, h1.rotaryPressed]
  · rw [h2.rotaryOldValue, h1.rotaryOldValue]
  · rw [h2.matrixBtn, h1.matrixBtn]
  · rw [h2.frame, h1.frame]
  · rw [h2.lastTick, h1.lastTick]
  · rw [h2.sleepBPM, h1.sleepBPM]
  · rw [h2.bpm, h1.bpm]
  · rw [h2.len, h1.len]
  · intro c r hc hr
    rw [h2.deb c r hc hr, h1.deb c r hc hr, h1.matrixBtn]
    by_cases hx' : (c, r) = x
    · have : (c, r) ∉ rest := hx' ▸ hx
      simp [hx', this]
    · simp [hx']
  · intro l c r hc hr
    rw [h2.keys l c r hc hr, h1.keys l c r hc hr]
    by_cases hx' : (c, r) = x
    · have : (c, r) ∉ rest := hx' ▸ hx
      subst hx'; simp [this]
    · simp only [List.mem_cons, hx', false_or, List.mem_singleton, if_false]
      simp only [keyAfter, hnp c r hc hr hx', hk _ c r hc hr hx', h1.layer]
      simp
  · intro c r hc hr
    rw [h2.colors c r hc hr, h1.colors c r hc hr]
    by_cases hx' : (c, r) = x
    · have : (c, r) ∉ rest := hx' ▸ hx
      subst hx'; simp [this]
    · simp only [List.mem_cons, hx', false_or, List.mem_singleton, if_false]
      have : colorAfter rand s1 c r = colorAfter rand s c r := by
        funext old
        simp only [colorAfter, hnp c r hc hr hx', hk _ c r hc hr hx', h1.layer]
      rw [this]
      simp

theorem cellLoop_eff (rand : Nat → Nat) :
    ∀ (cs : List (Nat × Nat)) (s : State), cs.Nodup →
      (∀ x ∈ cs, x.1 < COLUMNS ∧ x.2 < ROWS) → s.layer < LAYERS → s.colors.length = 12 →
      ∃ s', loopM (cellStep rand) cs s = some s' ∧ Eff rand cs s s' := by
  intro cs
  induction cs with
  | nil => intro s _ _ _ _; exact ⟨s, rfl, Eff.nil rand s⟩
  | cons x rest ih =>
    intro s hnd hin hl hlen
    obtain ⟨i, j⟩ := x
    have hij := hin (i, j) (List.mem_cons_self _ _)
    obtain ⟨s1, hs1, he1⟩ := cellStep_eff rand s i j hij.1 hij.2 hl hlen
    have hnd' := List.nodup_cons.mp hnd
    obtain ⟨s', hs', he'⟩ := ih s1 hnd'.2 (fun y hy => hin y (List.mem_cons_of_mem _ hy))
      (by rw [he1.layer]; exact hl) (by rw [he1.len]; exact hlen)
    exact ⟨s', by simp only [loopM, hs1, hs'], Eff.cons he1 he' hnd'.1⟩

theorem cellPass_spec (rand : Nat → Nat) (s : State) (hl : s.layer < LAYERS)
    (hlen : s.colors.length = 12) :
    ∃ s', cellPass s rand = some s' ∧ CellPassed rand s s' := by
  obtain ⟨s', hs', he⟩ := cellLoop_eff rand cellOrder s cellOrder_nodup
    (fun x hx => (mem_cellOrder x.1 x.2).mp hx) hl hlen
  refine ⟨s', hs', ?_⟩
  constructor
  · exact he.layer
  · exact he.rotaryPressed
  · exact he.rotaryOldValue
  · exact he.matrixBtn
  · exact he.frame
  · exact he.lastTick
  · exact he.sleepBPM
  · exact he.bpm
  · exact he.len
  · intro c r hc hr
    rw [he.deb c r hc hr, if_pos ((mem_cellOrder c r).mpr ⟨hc, hr⟩)]
  · intro l c r hc hr
    rw [he.keys l c r hc hr, if_pos ((mem_cellOrder c r).mpr ⟨hc, hr⟩)]
  · intro c r hc hr
    rw [he.colors c r hc hr, if_pos ((mem_cellOrder c r).mpr ⟨hc, hr⟩)]

/-! ## The other phases -/

theorem ColorsOnly.refl (s : State) : ColorsOnly s s := by
  constructor <;> rfl

theorem ColorsOnly.trans {a b c : State} (h1 : ColorsOnly a b) (h2 : ColorsOnly b c) :
    ColorsOnly a c := by
  constructor
  · rw [h2.layer, h1.layer]
  · rw [h2.rotaryPressed, h1.rotaryPressed]
  · rw [h2.rotaryOldValue, h1.rotaryOldValue]
  · rw [h2.matrixBtn, h1.matrixBtn]
  · rw [h2.matrixDebounceBtn, h1.matrixDebounceBtn]
  · rw [h2.frame, h1.frame]
  · rw [h2.keys, h1.keys]
  · rw [h2.lastTick, h1.lastTick]
  · rw [h2.sleepBPM, h1.sleepBPM]
  · rw [h2.bpm, h1.bpm]
  · rw [h2.len, h1.len]

theorem repopStep_colorsOnly (s : State) (x : Nat × Nat) (s' : State)
    (h : repopStep s x = some s') : ColorsOnly s s' := by
  unfold repopStep at h
  cases hk : getKey s.keys s.layer x.1 x.2 with
  | none => simp [hk] at h
  | some k =>
    cases k with
    | false =>
      simp [hk] at h
      subst h; exact ColorsOnly.refl s
    | true =>
      simp only [hk, Option.bind_eq_bind, Option.some_bind, if_true] at h
      cases hp : btnColors[toUint8 (s.layer * 3 + toUint8 x.2)]? with
      | none => simp [hp] at h
      | some p =>
        simp only [hp, Option.some_bind, setColor] at h
        split at h
        · simp at h
          subst h
          constructor <;> first | rfl | simp
        · simp at h

theorem repopLoop_colorsOnly (cs : List (Nat × Nat)) (s s' : State)
    (h : loopM repopStep cs s = some s') : ColorsOnly s s' :=
  loopM_rel repopStep ColorsOnly ColorsOnly.refl (fun _ _ _ => ColorsOnly.trans)
    repopStep_colorsOnly cs s s' h

theorem layerSwitch_spec (s : State) (b : Bool) (s1 : State) (hl : s.layer < LAYERS)
    (h : layerSwitch s b = some s1) :
    s1.layer = (if pressEdge s b then (s.layer + 1) % 3 else s.layer) ∧
    s1.rotaryPressed = (!b) ∧ s1.rotaryOldValue = s.rotaryOldValue ∧
    s1.matrixBtn = s.matrixBtn ∧ s1.matrixDebounceBtn = s.matrixDebounceBtn ∧
    s1.frame = s.frame ∧ s1.keys = s.keys ∧ s1.lastTick = s.lastTick ∧
    s1.sleepBPM = s.sleepBPM ∧ s1.bpm = s.bpm ∧
    s1.colors.length = (if pressEdge s b then 12 else s.colors.length) := by
  unfold layerSwitch at h
  cases b with
  | true =>
    simp at h; subst h; simp [pressEdge]
  | false =>
    cases hp : s.rotaryPressed with
    | true => simp [hp] at h; subst h; simp [pressEdge, hp]
    | false =>
      simp only [hp, Bool.not_false, if_true, Option.bind_eq_bind] at h
      obtain ⟨s2, hloop, h⟩ := Option.bind_eq_some.mp h
      simp only [Option.some.injEq] at h
      subst h
      · have hc := repopLoop_colorsOnly _ _ _ hloop
        have hlay : (if toUint8 (s.layer + 1) ≥ LAYERS then 0 else toUint8 (s.layer + 1))
            = (s.layer + 1) % 3 := by
          simp only [toUint8, LAYERS] at *
          split <;> omega
        simp only [pressEdge, hp, Bool.not_false, Bool.and_self, if_true]
        refine ⟨?_, by simp, hc.rotaryOldValue, hc.matrixBtn, hc.matrixDebounceBtn, hc.frame, hc.keys,
          hc.lastTick, hc.sleepBPM, hc.bpm, ?_⟩
        · show s2.layer = _
          rw [hc.layer]; exact hlay
        · show s2.colors.length = 12
          rw [hc.len]; rfl

theorem layerSwitch_noEdge (s : State) (b : Bool) (h : pressEdge s b = false) :
    layerSwitch s b = some { s with rotaryPressed := !b } := by
  unfold layerSwitch
  cases b <;> cases hp : s.rotaryPressed <;> simp_all [pressEdge]

theorem encoderStep_spec (s : State) (pos : Int) (h1 : 100 ≤ s.sleepBPM) (h2 : s.sleepBPM ≤ 1000)
    (hb : s.bpm = Itoa (Int.tdiv 60000 s.sleepBPM)) :
    ∃ s3, encoderStep s pos = some s3 ∧
      s3.sleepBPM = sleepAfter s.sleepBPM s.rotaryOldValue pos ∧
      s3.bpm = Itoa (Int.tdiv 60000 s3.sleepBPM) ∧
      s3.rotaryOldValue = pos ∧
      s3.layer = s.layer ∧ s3.rotaryPressed = s.rotaryPressed ∧ s3.matrixBtn = s.matrixBtn ∧
      s3.matrixDebounceBtn = s.matrixDebounceBtn ∧ s3.colors = s.colors ∧ s3.frame = s.frame ∧
      s3.keys = s.keys ∧ s3.lastTick = s.lastTick := by
  unfold encoderStep sleepAfter
  by_cases he : pos = s.rotaryOldValue
  · exact ⟨s, by simp [he], by simp [he], hb, he.symm, rfl, rfl, rfl, rfl, rfl, rfl, rfl, rfl⟩
  · by_cases hlt : pos < s.rotaryOldValue
    · have hne : (if s.sleepBPM + 10 > 1000 then (1000 : Int) else s.sleepBPM + 10) ≠ 0 := by
        split <;> omega
      have hmin : (if s.sleepBPM + 10 > 1000 then (1000 : Int) else s.sleepBPM + 10)
          = min 1000 (s.sleepBPM + 10) := by
        split <;> omega
      refine ⟨{ s with sleepBPM := if s.sleepBPM + 10 > 1000 then 1000 else s.sleepBPM + 10,
                       bpm := Itoa (Int.tdiv 60000
                         (if s.sleepBPM + 10 > 1000 then 1000 else s.sleepBPM + 10)),
                       rotaryOldValue := pos }, ?_, ?_, rfl, rfl, rfl, rfl, rfl, rfl, rfl, rfl, rfl, rfl⟩
      · simp only [he, hlt, ne_eq, not_false_eq_true, if_true, goDiv, hne, if_false,
          Option.bind_eq_bind, Option.some_bind]
      · simp only [he, hlt, if_false, if_true]; exact hmin
    · have hne : (if s.sleepBPM - 10 < 100 then (100 : Int) else s.sleepBPM - 10) ≠ 0 := by
        split <;> omega
      have hmax : (if s.sleepBPM - 10 < 100 then (100 : Int) else s.sleepBPM - 10)
          = max 100 (s.sleepBPM - 10) := by
        split <;> omega
      refine ⟨{ s with sleepBPM := if s.sleepBPM - 10 < 100 then 100 else s.sleepBPM - 10,
                       bpm := Itoa (Int.tdiv 60000
                         (if s.sleepBPM - 10 < 100 then 100 else s.sleepBPM - 10)),
                       rotaryOldValue := pos }, ?_, ?_, rfl, rfl, rfl, rfl, rfl, rfl, rfl, rfl, rfl, rfl⟩
      · simp only [he, hlt, ne_eq, not_false_eq_true, if_true, goDiv, hne, if_false,
          Option.bind_eq_bind, Option.some_bind]
      · simp only [he, hlt, if_false]; exact hmax

theorem mem_drumOrder (l r : Nat) : (l, r) ∈ drumOrder ↔ l < 2 ∧ r < ROWS := by
  simp only [drumOrder_eq, ROWS, List.mem_cons, Prod.mk.injEq, List.mem_singleton,
    List.not_mem_nil, or_false]
  omega

theorem notes_eq {l r : Nat} (hl : l < 2) (hr : r < ROWS) :
    notes[toUint8 (3 * l + r)]? = some (notes.getD (3 * l + r) 0) := by
  simp only [ROWS] at hr
  have h1 : l = 0 ∨ l = 1 := by omega
  have h2 : r = 0 ∨ r = 1 ∨ r = 2 := by omega
  rcases h1 with rfl | rfl <;> rcases h2 with rfl | rfl | rfl <;> decide

theorem notesMelody_eq {i j : Nat} (hi : i < COLUMNS) (hj : j < ROWS) :
    notesMelody[3 * i + j]? = some (notesMelody.getD (3 * i + j) 0) := by
  simp only [ROWS, COLUMNS] at hi hj
  have h1 : i = 0 ∨ i = 1 ∨ i = 2 ∨ i = 3 := by omega
  have h2 : j = 0 ∨ j = 1 ∨ j = 2 := by omega
  rcases h1 with rfl | rfl | rfl | rfl <;> rcases h2 with rfl | rfl | rfl <;> decide

theorem melodyStep_eq (s : State) : melodyStep s = some (melodyEvents s.keys) := by
  unfold melodyStep melodyEvents
  have := loopM_append (melodyBody s)
    (fun ij => if s.keys MELODYLAYER ij.1 ij.2 then
      [MidiEvent.NoteOff 0 MELODYCHANNEL (notesMelody.getD (3 * ij.1 + ij.2) 0) 64,
       MidiEvent.NoteOn 0 MELODYCHANNEL (notesMelody.getD (3 * ij.1 + ij.2) 0) 64]
     else []) cellOrder ?_ []
  · simpa using this
  · intro x hx evs
    obtain ⟨i, j⟩ := x
    have hij := (mem_cellOrder i j).mp hx
    have hl : MELODYLAYER < LAYERS := by decide
    show melodyBody s evs (i, j) = _
    unfold melodyBody
    rw [getKey_eq _ hl hij.1 hij.2, notesMelody_eq hij.1 hij.2]
    cases hk : s.keys MELODYLAYER i j <;> simp [hk]

theorem drumLoop_eq (s : State) (h0 : 0 ≤ s.frame) (h4 : s.frame < 4) :
    loopM (drumStep s) drumOrder [] = some (drumEvents s.keys s.frame.toNat) := by
  unfold drumEvents
  have := loopM_append (drumStep s)
    (fun lr => if s.keys lr.1 s.frame.toNat lr.2 then
      [MidiEvent.NoteOn 0 DRUMKITCHANNEL (notes.getD (3 * lr.1 + lr.2) 0) 64] else [])
    drumOrder ?_ []
  · simpa using this
  · intro x hx evs
    obtain ⟨l, r⟩ := x
    have hlr := (mem_drumOrder l r).mp hx
    have hf : s.frame.toNat < COLUMNS := by simp only [COLUMNS]; omega
    have hl : l < LAYERS := by simp only [LAYERS]; omega
    have hidx : indexOfInt s.frame COLUMNS = some s.frame.toNat := by
      simp only [indexOfInt, COLUMNS]
      rw [if_pos]
      constructor
      · exact h0
      · exact_mod_cast h4
    show drumStep s evs (l, r) = _
    unfold drumStep
    rw [hidx]
    simp only [Option.bind_eq_bind, Option.some_bind]
    rw [getKey_eq _ hl hf hlr.2, notes_eq hlr.1 hlr.2]
    cases hk : s.keys l s.frame.toNat r <;> simp [hk]

theorem sequencerStep_spec (s : State) (now : Int) (h0 : 0 ≤ s.frame) (h4 : s.frame < 4) :
    sequencerStep s now =
      if advances s now then
        some ({ s with frame := (s.frame + 1) % 4, lastTick := now },
              drumEvents s.keys ((s.frame + 1) % 4).toNat)
      else some (s, []) := by
  unfold sequencerStep advances
  by_cases h : sub64 now s.lastTick ≥ s.sleepBPM
  · have hf : (if wrapInt16 (s.frame + 1) ≥ 4 then (0 : Int) else wrapInt16 (s.frame + 1))
        = (s.frame + 1) % 4 := by
      simp only [wrapInt16]
      split <;> omega
    simp only [h, if_true, decide_True, hf, Option.bind_eq_bind]
    have hd := drumLoop_eq { s with frame := (s.frame + 1) % 4, lastTick := now }
      (by show 0 ≤ (s.frame + 1) % 4; omega) (by show (s.frame + 1) % 4 < 4; omega)
    rw [hd]
    rfl
  · simp [h]

/-! ## One iteration as a whole -/

theorem tick_of_switch (s : State) (inp : Input) (s1 : State) (hwf : WF s)
    (h1 : layerSwitch s inp.rotaryBtn = some s1) :
    ∃ s' out, tick s inp = some (s', out) ∧ Ticked s inp s' out := by
  obtain ⟨hl1, hrp1, hro1, hmb1, hdb1, hfr1, hk1, hlt1, hsl1, hbpm1, hlen1⟩ :=
    layerSwitch_spec s inp.rotaryBtn s1 hwf.layer_lt h1
  have hl1lt : s1.layer < LAYERS := by
    rw [hl1]; have := hwf.layer_lt; simp only [LAYERS] at *; split <;> omega
  have hlen1' : s1.colors.length = 12 := by
    rw [hlen1]; split
    · rfl
    · exact hwf.colors_len
  obtain ⟨s3, h3, hsl3, hbpm3, hro3, hl3, hrp3, hmb3, hdb3, hcol3, hfr3, hk3, hlt3⟩ :=
    encoderStep_spec (getMatrixState s1 inp.matrix) inp.encoder
      (by show 100 ≤ s1.sleepBPM; rw [hsl1]; exact hwf.sleep_ge)
      (by show s1.sleepBPM ≤ 1000; rw [hsl1]; exact hwf.sleep_le)
      (by show s1.bpm = Itoa (Int.tdiv 60000 s1.sleepBPM); rw [hbpm1, hsl1]; exact hwf.bpm_eq)
  have hl3' : s3.layer = s1.layer := hl3
  have hcol3' : s3.colors = s1.colors := hcol3
  have hsl3' : s3.sleepBPM = sleepAfter s.sleepBPM s.rotaryOldValue inp.encoder := by
    rw [hsl3]; show sleepAfter s1.sleepBPM s1.rotaryOldValue inp.encoder = _; rw [hsl1, hro1]
  obtain ⟨s4, h4, hc4⟩ := cellPass_spec inp.rand s3 (by rw [hl3']; exact hl1lt)
    (by rw [hcol3']; exact hlen1')
  have hfr4 : s4.frame = s.frame := by rw [hc4.frame, hfr3]; exact hfr1
  have hlt4 : s4.lastTick = s.lastTick := by rw [hc4.lastTick, hlt3]; exact hlt1
  have h5 := sequencerStep_spec s4 inp.now (by rw [hfr4]; exact hwf.frame_nonneg)
    (by rw [hfr4]; exact hwf.frame_lt)
  have hsl4 : s4.sleepBPM = sleepAfter s.sleepBPM s.rotaryOldValue inp.encoder := by
    rw [hc4.sleepBPM]; exact hsl3'
  have hmb : ∀ c r, c < COLUMNS → r < ROWS → s3.matrixBtn c r = inp.matrix c r := by
    intro c r hc hr
    rw [hmb3]; simp [getMatrixState, hc, hr]
  have hnp : ∀ c r, c < COLUMNS → r < ROWS → newPress s3 c r = pressed s inp c r := by
    intro c r hc hr
    have hd : s3.matrixDebounceBtn = s.matrixDebounceBtn := by rw [hdb3]; exact hdb1
    simp only [newPress, pressed, hmb c r hc hr, hd]
  have hkeys3 : s3.keys = s.keys := by rw [hk3]; exact hk1
  obtain ⟨s5, drum, h5', hfr5, hlt5, hdrum5, hl5, hk5, hcol5, hrp5, hro5, hsl5, hbpm5, hmb5, hdb5⟩ :
      ∃ s5 drum, sequencerStep s4 inp.now = some (s5, drum) ∧
        (s5.frame = if sub64 inp.now s.lastTick ≥ s4.sleepBPM then (s.frame + 1) % 4
          else s.frame) ∧
        (s5.lastTick = if sub64 inp.now s.lastTick ≥ s4.sleepBPM then inp.now else s.lastTick) ∧
        (drum = if sub64 inp.now s.lastTick ≥ s4.sleepBPM then drumEvents s5.keys s5.frame.toNat
          else []) ∧
        s5.layer = s4.layer ∧ s5.keys = s4.keys ∧ s5.colors = s4.colors ∧
        s5.rotaryPressed = s4.rotaryPressed ∧ s5.rotaryOldValue = s4.rotaryOldValue ∧
        s5.sleepBPM = s4.sleepBPM ∧ s5.bpm = s4.bpm ∧ s5.matrixBtn = s4.matrixBtn ∧
        s5.matrixDebounceBtn = s4.matrixDebounceBtn := by
    rw [h5]
    by_cases hadv : sub64 inp.now s4.lastTick ≥ s4.sleepBPM
    · have hadv' : sub64 inp.now s.lastTick ≥ s4.sleepBPM := by rw [← hlt4]; exact hadv
      refine ⟨{ s4 with frame := (s4.frame + 1) % 4, lastTick := inp.now },
        drumEvents s4.keys ((s4.frame + 1) % 4).toNat, ?_, ?_, ?_, ?_,
        rfl, rfl, rfl, rfl, rfl, rfl, rfl, rfl, rfl⟩
      · simp only [advances, hadv, decide_True, if_true]
      · simp only [hadv', if_true, hfr4]
      · simp only [hadv', if_true]
      · simp only [hadv', if_true]
    · have hadv' : ¬ sub64 inp.now s.lastTick ≥ s4.sleepBPM := by rw [← hlt4]; exact hadv
      refine ⟨s4, [], ?_, ?_, ?_, ?_, rfl, rfl, rfl, rfl, rfl, rfl, rfl, rfl, rfl⟩
      · simp only [advances, hadv, decide_False, Bool.false_eq_true, if_false]
      · simp only [hadv', if_false, hfr4]
      · simp only [hadv', if_false, hlt4]
      · simp only [hadv', if_false]
  refine ⟨s5, { drum := drum, melody := melodyEvents s5.keys, leds := s5.colors,
                layerName := layerLabel s5.layer, bpmText := s5.bpm ++ " BPM",
                rectX := wrapInt16 (32 * s5.frame) }, ?_, ?_⟩
  · simp only [tick, h1, h3, h4, h5', melodyStep_eq, Option.bind_eq_bind, Option.some_bind]
  · have hlay5 : s5.layer = if pressEdge s inp.rotaryBtn then (s.layer + 1) % 3 else s.layer := by
      rw [hl5, hc4.layer, hl3']; exact hl1
    constructor
    · constructor
      · rw [hl5, hc4.layer, hl3']; exact hl1lt
      · rw [hcol5, hc4.len, hcol3']; exact hlen1'
      · rw [hfr5]; have := hwf.frame_nonneg; split <;> omega
      · rw [hfr5]; have := hwf.frame_lt; split <;> omega
      · rw [hsl5, hsl4]; have := hwf.sleep_ge; simp only [sleepAfter]; split <;> [skip; split] <;> omega
      · rw [hsl5, hsl4]; have := hwf.sleep_le; simp only [sleepAfter]; split <;> [skip; split] <;> omega
      · rw [hbpm5, hsl5, hc4.bpm, hc4.sleepBPM]; exact hbpm3
    · exact hlay5
    · rw [hrp5, hc4.rotaryPressed, hrp3]; exact hrp1
    · rw [hro5, hc4.rotaryOldValue]; exact hro3
    · rw [hsl5]; exact hsl4
    · intro c r hc hr
      rw [hmb5, hc4.matrixBtn]; exact hmb c r hc hr
    · intro c r hc hr
      rw [hdb5, hc4.deb c r hc hr]; exact hmb c r hc hr
    · intro l c r hc hr
      rw [hk5, hc4.keys l c r hc hr, hlay5, ← hl1, ← hl3']
      simp only [keyAfter, hnp c r hc hr, hkeys3]
      by_cases hll : l = s3.layer
      · subst hll; simp
      · simp [hll]
    · rw [hfr5, hsl5]
    · rw [hlt5, hsl5]
    · show drum = _
      rw [hdrum5, hsl5]
    · rfl
    · rfl
    · intro s1' hs1' c r hc hr
      have : s1' = s1 := by rw [h1] at hs1'; exact (Option.some.inj hs1').symm
      subst this
      rw [hcol5, hc4.colors c r hc hr, hcol3', hlay5, ← hl1, ← hl3']
      congr 1
      funext old
      simp only [colorAfter, tickColor, hnp c r hc hr, hkeys3]

theorem tick_eq_tickD {s : State} {inp : Input} (h : (tick s inp).isSome = true) :
    tick s inp = some ((tickD s inp).1, (tickD s inp).2) := by
  unfold tickD
  cases ht : tick s inp with
  | none => simp [ht] at h
  | some p => rfl

theorem run_eq_runD {s : State} {inps : List Input} (h : (run s inps).isSome = true) :
    run s inps = some (runD s inps) := by
  unfold runD
  cases ht : run s inps with
  | none => simp [ht] at h
  | some p => rfl

theorem tick_spec (s : State) (inp : Input) (s' : State) (out : Output) (hwf : WF s)
    (h : tick s inp = some (s', out)) : Ticked s inp s' out := by
  cases h1 : layerSwitch s inp.rotaryBtn with
  | none => simp [tick, h1] at h
  | some s1 =>
    obtain ⟨s'', out', ht, hT⟩ := tick_of_switch s inp s1 hwf h1
    rw [ht] at h
    simp only [Option.some.injEq, Prod.mk.injEq] at h
    obtain ⟨rfl, rfl⟩ := h
    exact hT

theorem tick_total (s : State) (inp : Input) (hwf : WF s)
    (h : pressEdge s inp.rotaryBtn = false) :
    ∃ s' out, tick s inp = some (s', out) ∧ Ticked s inp s' out :=
  tick_of_switch s inp _ hwf (layerSwitch_noEdge s inp.rotaryBtn h)

theorem wf_init : WF State.init := by
  constructor <;> decide

theorem reachable_wf {s : State} (h : Reachable s) : WF s := by
  induction h with
  | init => exact wf_init
  | step _ ht ih => exact (tick_spec _ _ _ _ ih ht).wf

/-! ## Runs -/

theorem run_cons_some {s : State} {inp : Input} {rest : List Input} {tr : List Step}
    (h : run s (inp :: rest) = some tr) :
    ∃ s' o tr', tick s inp = some (s', o) ∧ run s' rest = some tr' ∧
      tr = ⟨s, inp, s', o⟩ :: tr' := by
  simp only [run] at h
  cases ht : tick s inp with
  | none => simp [ht] at h
  | some p =>
    obtain ⟨s', o⟩ := p
    simp only [ht] at h
    cases hr : run s' rest with
    | none => simp [hr] at h
    | some tr' =>
      simp only [hr, Option.some.injEq] at h
      exact ⟨s', o, tr', rfl, hr, h.symm⟩

theorem run_cons_of {s s' : State} {inp : Input} {o : Output} {rest : List Input}
    {tr' : List Step} (ht : tick s inp = some (s', o)) (hr : run s' rest = some tr') :
    run s (inp :: rest) = some (⟨s, inp, s', o⟩ :: tr') := by
  simp only [run, ht, hr]

theorem run_reachable {s : State} (hs : Reachable s) :
    ∀ (inps : List Input) (tr : List Step), run s inps = some tr →
      Reachable (finalState s tr) := by
  intro inps
  induction inps generalizing s with
  | nil => intro tr h; simp only [run, Option.some.injEq] at h; subst h; exact hs
  | cons inp rest ih =>
    intro tr h
    obtain ⟨s', o, tr', ht, hr, rfl⟩ := run_cons_some h
    exact ih (Reachable.step hs ht) tr' hr

/-- Every step of a completed run from a state satisfying the invariant starts in a state
satisfying it and is described by `Ticked`. -/
theorem run_steps {s : State} (hwf : WF s) :
    ∀ (inps : List Input) (tr : List Step), run s inps = some tr →
      ∀ st ∈ tr, WF st.pre ∧ Ticked st.pre st.inp st.post st.out := by
  intro inps
  induction inps generalizing s with
  | nil => intro tr h; simp only [run, Option.some.injEq] at h; subst h; simp
  | cons inp rest ih =>
    intro tr h st hst
    obtain ⟨s', o, tr', ht, hr, rfl⟩ := run_cons_some h
    have hT := tick_spec _ _ _ _ hwf ht
    rcases List.mem_cons.mp hst with rfl | hmem
    · exact ⟨hwf, hT⟩
    · exact ih hT.wf tr' hr st hmem

/-! ## Calls per pitch, drum calls, latch -/

theorem filter_flatMap_single {α β : Type} (g : α → List β) (q : β → Bool) (a : α) :
    ∀ (xs : List α), xs.Nodup → a ∈ xs → (∀ x ∈ xs, x ≠ a → (g x).filter q = []) →
      (xs.flatMap g).filter q = (g a).filter q := by
  intro xs
  induction xs with
  | nil => intro _ ha; simp at ha
  | cons x rest ih =>
    intro hnd ha h1
    have hnd' := List.nodup_cons.mp hnd
    simp only [List.flatMap_cons, List.filter_append]
    by_cases hxa : x = a
    · subst hxa
      have hrest : (rest.flatMap g).filter q = [] := by
        clear ih
        have : ∀ y ∈ rest, (g y).filter q = [] := fun y hy =>
          h1 y (List.mem_cons_of_mem _ hy) (fun h => hnd'.1 (h ▸ hy))
        clear h1 ha hnd hnd'
        induction rest with
        | nil => rfl
        | cons y ys ih2 =>
          simp only [List.flatMap_cons, List.filter_append]
          rw [this y (List.mem_cons_self _ _), ih2 (fun z hz => this z (List.mem_cons_of_mem _ hz))]
          rfl
      rw [hrest, List.append_nil]
    · have ha' : a ∈ rest := by
        rcases List.mem_cons.mp ha with h | h
        · exact absurd h.symm hxa
        · exact h
      rw [h1 x (List.mem_cons_self _ _) hxa, List.nil_append]
      exact ih hnd'.2 ha' (fun y hy => h1 y (List.mem_cons_of_mem _ hy))

theorem melodyPitch_inj : ∀ x ∈ cellOrder, ∀ y ∈ cellOrder,
    melodyPitch x.1 x.2 = melodyPitch y.1 y.2 → x = y := by
  rw [cellOrder_eq]; decide

theorem callsFor_melodyEvents (k : Keys) (c r : Nat) (hc : c < COLUMNS) (hr : r < ROWS) :
    callsFor (melodyPitch c r) (melodyEvents k) =
      if k MELODYLAYER c r then melodyPair (melodyPitch c r) else [] := by
  unfold callsFor melodyEvents
  rw [filter_flatMap_single _ _ (c, r) cellOrder cellOrder_nodup ((mem_cellOrder c r).mpr ⟨hc, hr⟩)]
  · cases k MELODYLAYER c r <;> simp [melodyPair, melodyPitch, MidiEvent.note]
  · intro x hx hne
    obtain ⟨i, j⟩ := x
    have hij := (mem_cellOrder i j).mp hx
    have hp : melodyPitch i j ≠ melodyPitch c r := by
      intro h
      exact hne (melodyPitch_inj (i, j) hx (c, r) ((mem_cellOrder c r).mpr ⟨hc, hr⟩) h)
    have hp' : notesMelody.getD (3 * i + j) 0 ≠ melodyPitch c r := hp
    cases k MELODYLAYER i j
    · simp
    · simpa [MidiEvent.note] using hp'

theorem melody_latched_silent (c r : Nat) (hc : c < COLUMNS) (hr : r < ROWS) :
    ∀ (inps : List Input) (s : State) (tr : List Step), WF s →
      s.matrixDebounceBtn c r = true → (∀ inp ∈ inps, inp.matrix c r = true) →
      run s inps = some tr → (∀ st ∈ tr, st.post.layer = MELODYLAYER) →
      tr.map (fun st => callsFor (melodyPitch c r) st.out.melody) =
        List.replicate inps.length [] := by
  intro inps
  induction inps with
  | nil =>
    intro s tr _ _ _ h _
    simp only [run, Option.some.injEq] at h
    subst h; rfl
  | cons inp rest ih =>
    intro s tr hwf hd hm hrun hlay
    obtain ⟨s', o, tr', ht, hr', rfl⟩ := run_cons_some hrun
    have hT := tick_spec _ _ _ _ hwf ht
    have hl' : s'.layer = MELODYLAYER := hlay ⟨s, inp, s', o⟩ (List.mem_cons_self _ _)
    have hd' : s'.matrixDebounceBtn c r = true := by
      rw [hT.deb c r hc hr]; exact hm inp (List.mem_cons_self _ _)
    have hobs := ih s' tr' hT.wf hd' (fun i hi => hm i (List.mem_cons_of_mem _ hi)) hr'
      (fun st hst => hlay st (List.mem_cons_of_mem _ hst))
    have hk : s'.keys MELODYLAYER c r = false := by
      rw [hT.keys MELODYLAYER c r hc hr, hl']
      simp [pressed, hd]
    simp only [List.map_cons, hobs, List.length_cons, List.replicate_succ]
    rw [hT.melody, callsFor_melodyEvents _ c r hc hr, hk]
    rfl

theorem melody_run_total :
    ∀ (inps : List Input) (s : State), WF s → s.layer = MELODYLAYER →
      noPressEdge s.rotaryPressed inps = true →
      ∃ tr, run s inps = some tr ∧ ∀ st ∈ tr, st.post.layer = MELODYLAYER := by
  intro inps
  induction inps with
  | nil => intro s _ _ _; exact ⟨[], rfl, by simp⟩
  | cons inp rest ih =>
    intro s hwf hl hno
    simp only [noPressEdge, Bool.and_eq_true, Bool.or_eq_true] at hno
    have hedge : pressEdge s inp.rotaryBtn = false := by
      rcases hno.1 with h | h <;> simp [pressEdge, h]
    obtain ⟨s', out, ht, hT⟩ := tick_total s inp hwf hedge
    have hl' : s'.layer = MELODYLAYER := by rw [hT.layer, hedge]; simpa using hl
    obtain ⟨tr', hr', hlay⟩ := ih s' hT.wf hl' (by rw [hT.rotaryPressed]; exact hno.2)
    refine ⟨_, run_cons_of ht hr', ?_⟩
    intro st hst
    rcases List.mem_cons.mp hst with rfl | hmem
    · exact hl'
    · exact hlay st hmem

theorem melodyState_reachable : Reachable melodyState :=
  run_reachable Reachable.init _ _ (run_eq_runD (by decide))

theorem melodyHeldState_reachable : Reachable melodyHeldState :=
  run_reachable Reachable.init _ _ (run_eq_runD (by decide))

theorem flatMap_ite_eq_filterMap {α β : Type} (p : α → Bool) (f : α → β) (xs : List α) :
    (xs.flatMap fun x => if p x then [f x] else []) =
      xs.filterMap fun x => if p x then some (f x) else none := by
  induction xs with
  | nil => rfl
  | cons x rest ih =>
    simp only [List.flatMap_cons, List.filterMap_cons, ih]
    cases p x <;> simp

theorem drumEvents_eq_drumSpec (k : Keys) (f : Nat) : drumEvents k f = drumSpec k f := by
  unfold drumEvents drumSpec
  rw [drumOrder_eq]
  exact flatMap_ite_eq_filterMap (fun lr : Nat × Nat => k lr.1 f lr.2)
    (fun lr : Nat × Nat => MidiEvent.NoteOn 0 10 (notes.getD (3 * lr.1 + lr.2) 0) 64) _

theorem sub64_of_fits (a b : Int) (h1 : -9223372036854775808 ≤ a - b)
    (h2 : a - b < 9223372036854775808) : sub64 a b = a - b := by
  unfold sub64 wrapInt64
  omega

theorem latched_run (c r : Nat) (hc : c < COLUMNS) (hr : r < ROWS) (rel : Input)
    (hrel : rel.matrix c r = false) :
    ∀ (held : List Input) (s : State) (tr : List Step), WF s →
      s.matrixDebounceBtn c r = true → (∀ inp ∈ held, inp.matrix c r = true) →
      run s (held ++ [rel]) = some tr →
      tr.map (fun st => pressed st.pre st.inp c r) = List.replicate (held.length + 1) false ∧
      (finalState s tr).matrixDebounceBtn c r = false := by
  intro held
  induction held with
  | nil =>
    intro s tr hwf hd _ hrun
    obtain ⟨s', o, tr', ht, hr', rfl⟩ := run_cons_some hrun
    simp only [run, Option.some.injEq] at hr'
    subst hr'
    have hT := tick_spec _ _ _ _ hwf ht
    refine ⟨by simp [pressed, hrel], ?_⟩
    show s'.matrixDebounceBtn c r = false
    rw [hT.deb c r hc hr]; exact hrel
  | cons inp rest ih =>
    intro s tr hwf hd hheld hrun
    obtain ⟨s', o, tr', ht, hr', rfl⟩ := run_cons_some hrun
    have hT := tick_spec _ _ _ _ hwf ht
    have hd' : s'.matrixDebounceBtn c r = true := by
      rw [hT.deb c r hc hr]; exact hheld inp (List.mem_cons_self _ _)
    obtain ⟨h1, h2⟩ := ih s' tr' hT.wf hd' (fun i hi => hheld i (List.mem_cons_of_mem _ hi)) hr'
    refine ⟨?_, h2⟩
    rw [List.map_cons, h1]
    simp [pressed, hd, List.replicate_succ]

theorem congaState_reachable : Reachable congaState :=
  run_reachable Reachable.init _ _ (run_eq_runD (by decide))

/-! ## Colour arithmetic, repopulation, frames of the phases -/

theorem and_shiftLeft_mask (a m k : Nat) : a &&& (m <<< k) = ((a >>> k) &&& m) <<< k := by
  apply Nat.eq_of_testBit_eq
  intro i
  simp only [Nat.testBit_and, Nat.testBit_shiftLeft, Nat.testBit_shiftRight]
  by_cases h : k ≤ i
  · have : k + (i - k) = i := by omega
    simp [h, this]
  · simp [h]

theorem and_byte_mask (a k : Nat) : a &&& (255 <<< k) = (a / 2 ^ k % 256) * 2 ^ k := by
  rw [and_shiftLeft_mask, Nat.shiftLeft_eq, Nat.shiftRight_eq_div_pow]
  have : (255 : Nat) = 2 ^ 8 - 1 := by norm_num
  rw [this, Nat.and_pow_two_sub_one_eq_mod]

theorem decay_channel24 (c : Nat) :
    ((c &&& 0xFF000000) >>> 1) &&& 0xFF000000 = (c / 16777216 % 256 / 2) * 16777216 := by
  have e : (0xFF000000 : Nat) = 255 <<< 24 := by decide
  rw [e, and_byte_mask c 24, and_byte_mask, Nat.shiftRight_eq_div_pow]
  norm_num
  omega

theorem decay_channel16 (c : Nat) :
    ((c &&& 0x00FF0000) >>> 1) &&& 0x00FF0000 = (c / 65536 % 256 / 2) * 65536 := by
  have e : (0x00FF0000 : Nat) = 255 <<< 16 := by decide
  rw [e, and_byte_mask c 16, and_byte_mask, Nat.shiftRight_eq_div_pow]
  norm_num
  omega

theorem decay_channel8 (c : Nat) :
    ((c &&& 0x0000FF00) >>> 1) &&& 0x0000FF00 = (c / 256 % 256 / 2) * 256 := by
  have e : (0x0000FF00 : Nat) = 255 <<< 8 := by decide
  rw [e, and_byte_mask c 8, and_byte_mask, Nat.shiftRight_eq_div_pow]
  norm_num
  omega

/-- The attenuation in arithmetic: each of the three upper bytes is halved, the low byte is
`0xFF`. -/
theorem decay_eq (c : Nat) :
    decay c = (byteOf c 3 / 2) * 16777216 + (byteOf c 2 / 2) * 65536 + (byteOf c 1 / 2) * 256
      + 255 := by
  have hg := decay_channel24 c
  have hr := decay_channel16 c
  have hb := decay_channel8 c
  unfold decay byteOf
  simp only [hg, hr, hb]
  have p24 : (2 : Nat) ^ 24 = 16777216 := by norm_num
  have p16 : (2 : Nat) ^ 16 = 65536 := by norm_num
  have p8 : (2 : Nat) ^ 8 = 256 := by norm_num
  have q3 : (256 : Nat) ^ 3 = 16777216 := by norm_num
  have q2 : (256 : Nat) ^ 2 = 65536 := by norm_num
  have q1 : (256 : Nat) ^ 1 = 256 := by norm_num
  simp only [p24, p16, p8, q3, q2, q1]
  generalize c / 16777216 % 256 / 2 = G
  generalize hR : c / 65536 % 256 / 2 = R
  generalize hB : c / 256 % 256 / 2 = B
  have hR' : R < 128 := by omega
  have hB' : B < 128 := by omega
  rw [Nat.or_assoc, Nat.or_assoc]
  have s1 : B * 256 ||| 255 = B * 256 + 255 := by
    have := Nat.mul_add_lt_is_or (i := 8) (b := 255) (by norm_num) B
    rw [p8] at this; rw [Nat.mul_comm B 256]; exact this.symm
  have s2 : R * 65536 ||| (B * 256 + 255) = R * 65536 + (B * 256 + 255) := by
    have := Nat.mul_add_lt_is_or (i := 16) (b := B * 256 + 255) (by norm_num; omega) R
    rw [p16] at this; rw [Nat.mul_comm R 65536]; exact this.symm
  have s3 : G * 16777216 ||| (R * 65536 + (B * 256 + 255))
      = G * 16777216 + (R * 65536 + (B * 256 + 255)) := by
    have := Nat.mul_add_lt_is_or (i := 24) (b := R * 65536 + (B * 256 + 255))
      (by norm_num; omega) G
    rw [p24] at this; rw [Nat.mul_comm G 16777216]; exact this.symm
  rw [s1, s2, s3]
  omega

theorem palette_uint32 {l r : Nat} (hl : l < 2) (hr : r < ROWS) :
    toUint32 (btnColors.getD (l * 3 + r) 0) = paletteColor (l * 3 + r) := by
  simp only [ROWS] at hr
  have h1 : l = 0 ∨ l = 1 := by omega
  have h2 : r = 0 ∨ r = 1 ∨ r = 2 := by omega
  rcases h1 with rfl | rfl <;> rcases h2 with rfl | rfl | rfl <;> decide

theorem repopLoop_spec :
    ∀ (cs : List (Nat × Nat)) (s : State), (∀ x ∈ cs, x.1 < COLUMNS ∧ x.2 < ROWS) →
      s.layer < 2 → s.colors.length = 12 →
      ∃ s', loopM repopStep cs s = some s' ∧ ColorsOnly s s' ∧
        ∀ c r, c < COLUMNS → r < ROWS →
          s'.colors[c * ROWS + r]? =
            if (c, r) ∈ cs ∧ s.keys s.layer c r = true then
              some (paletteColor (s.layer * 3 + r))
            else s.colors[c * ROWS + r]? := by
  intro cs
  induction cs with
  | nil =>
    intro s _ _ _
    exact ⟨s, rfl, ColorsOnly.refl s, by intros; simp⟩
  | cons x rest ih =>
    intro s hin hl hlen
    obtain ⟨i, j⟩ := x
    have hij := hin (i, j) (List.mem_cons_self _ _)
    have hl3 : s.layer < LAYERS := by simp only [LAYERS]; omega
    have hidx : i * ROWS + j < s.colors.length := by
      have := hij.1; have := hij.2
      simp only [COLUMNS, ROWS] at *; omega
    have hinj : ∀ c r, r < ROWS → (i * ROWS + j = c * ROWS + r ↔ c = i ∧ r = j) := by
      intro c r hr; have := hij.2; simp only [ROWS] at *; omega
    -- the state after the body has run for `(i, j)`
    obtain ⟨s1, hs1, hc1, hcol1⟩ : ∃ s1, repopStep s (i, j) = some s1 ∧ ColorsOnly s s1 ∧
        ∀ c r, c < COLUMNS → r < ROWS →
          s1.colors[c * ROWS + r]? =
            if (c = i ∧ r = j) ∧ s.keys s.layer c r = true then
              some (paletteColor (s.layer * 3 + r))
            else s.colors[c * ROWS + r]? := by
      cases hk : s.keys s.layer i j with
      | false =>
        refine ⟨s, ?_, ColorsOnly.refl s, ?_⟩
        · simp [repopStep, getKey_eq _ hl3 hij.1 hij.2, hk]
        · intro c r hc hr
          by_cases h : c = i ∧ r = j
          · obtain ⟨rfl, rfl⟩ := h; simp [hk]
          · simp [h]
      | true =>
        refine ⟨{ s with colors := s.colors.set (i * ROWS + j) (paletteColor (s.layer * 3 + j)) },
          ?_, ?_, ?_⟩
        · simp only [repopStep, getKey_eq _ hl3 hij.1 hij.2, hk, palette_eq hl hij.2,
            Option.bind_eq_bind, Option.some_bind, if_true, palette_uint32 hl hij.2,
            setColor_eq _ _ hidx]
        · constructor <;> first | rfl | simp
        · intro c r hc hr
          show (s.colors.set (i * ROWS + j) (paletteColor (s.layer * 3 + j)))[c * ROWS + r]? = _
          by_cases h : c = i ∧ r = j
          · obtain ⟨rfl, rfl⟩ := h
            simp [hk, List.getElem?_set, hidx]
          · have h' : ¬ (i * ROWS + j = c * ROWS + r) := by rw [hinj c r hr]; exact h
            simp [h, h', List.getElem?_set]
    obtain ⟨s', hs', hc', hcol'⟩ := ih s1 (fun y hy => hin y (List.mem_cons_of_mem _ hy))
      (by rw [hc1.layer]; exact hl) (by rw [hc1.len]; exact hlen)
    refine ⟨s', by simp only [loopM, hs1, hs'], ColorsOnly.trans hc1 hc', ?_⟩
    intro c r hc hr
    rw [hcol' c r hc hr, hcol1 c r hc hr, hc1.keys, hc1.layer]
    by_cases hk : s.keys s.layer c r = true
    · by_cases hm : (c, r) ∈ rest
      · simp [hm, hk]
      · by_cases hx : c = i ∧ r = j
        · obtain ⟨rfl, rfl⟩ := hx
          simp [hm, hk]
        · have hx' : ¬ (c, r) = (i, j) := by simpa using hx
          simp [hm, hk, hx, hx']
    · simp [hk]

theorem blackBuffer_get {k : Nat} (hk : k < 12) : blackBuffer[k]? = some black := by
  have : k = 0 ∨ k = 1 ∨ k = 2 ∨ k = 3 ∨ k = 4 ∨ k = 5 ∨ k = 6 ∨ k = 7 ∨ k = 8 ∨ k = 9 ∨
      k = 10 ∨ k = 11 := by omega
  rcases this with rfl | rfl | rfl | rfl | rfl | rfl | rfl | rfl | rfl | rfl | rfl | rfl <;> rfl

theorem nextLayer_eq (l : Nat) (hl : l < LAYERS) :
    (if toUint8 (l + 1) ≥ LAYERS then 0 else toUint8 (l + 1)) = (l + 1) % 3 := by
  simp only [toUint8, LAYERS] at *
  split <;> omega

/-- A press edge that leads to a sequencer layer completes and leaves the buffer showing
the grid of that layer. -/
theorem layerSwitch_edge_seq (s : State) (b : Bool) (hl : s.layer < LAYERS)
    (he : pressEdge s b = true) (hnew : (s.layer + 1) % 3 < 2) :
    ∃ s1, layerSwitch s b = some s1 ∧
      ∀ c r, c < COLUMNS → r < ROWS →
        s1.colors[c * ROWS + r]? = some (seqColor s.keys ((s.layer + 1) % 3) c r) := by
  have hb : b = false := by cases b <;> simp_all [pressEdge]
  have hp : s.rotaryPressed = false := by cases h : s.rotaryPressed <;> simp_all [pressEdge]
  subst hb
  obtain ⟨s2, hs2, hc2, hcol2⟩ := repopLoop_spec cellOrder
    { s with layer := (s.layer + 1) % 3, colors := blackBuffer }
    (fun x hx => (mem_cellOrder x.1 x.2).mp hx) hnew rfl
  refine ⟨{ s2 with rotaryPressed := true }, ?_, ?_⟩
  · unfold layerSwitch
    have hp' : (!s.rotaryPressed) = true := by simp [hp]
    simp only [Bool.not_false, if_true, hp', nextLayer_eq s.layer hl, Option.bind_eq_bind]
    rw [hs2]; rfl
  · intro c r hc hr
    show s2.colors[c * ROWS + r]? = _
    rw [hcol2 c r hc hr]
    have hidx : c * ROWS + r < 12 := by simp only [COLUMNS, ROWS] at *; omega
    simp only [(mem_cellOrder c r).mpr ⟨hc, hr⟩, true_and, seqColor]
    show (if s.keys ((s.layer + 1) % 3) c r = true then _ else blackBuffer[c * ROWS + r]?) = _
    rw [blackBuffer_get hidx]
    split <;> rfl

theorem repopStep_melody (s : State) (x : Nat × Nat) (s' : State) (hl : s.layer = MELODYLAYER)
    (h : repopStep s x = some s') : s' = s := by
  unfold repopStep at h
  cases hk : getKey s.keys s.layer x.1 x.2 with
  | none => simp [hk] at h
  | some k =>
    cases k with
    | false => simp [hk] at h; exact h.symm
    | true =>
      have hr : x.2 < ROWS := by
        unfold getKey at hk
        split at hk
        · rename_i hc; exact hc.2.2
        · simp at hk
      have hp : btnColors[toUint8 (s.layer * 3 + toUint8 x.2)]? = none := by
        rw [hl]
        simp only [ROWS] at hr
        have h2 : x.2 = 0 ∨ x.2 = 1 ∨ x.2 = 2 := by omega
        rcases h2 with h2 | h2 | h2 <;> rw [h2] <;> decide
      simp [hk, hp] at h

theorem repopLoop_melody (cs : List (Nat × Nat)) :
    ∀ (s s' : State), s.layer = MELODYLAYER → loopM repopStep cs s = some s' → s' = s := by
  induction cs with
  | nil => intro s s' _ h; simp only [loopM, Option.some.injEq] at h; exact h.symm
  | cons x rest ih =>
    intro s s' hl h
    simp only [loopM] at h
    cases hb : repopStep s x with
    | none => simp [hb] at h
    | some s1 =>
      simp only [hb] at h
      have := repopStep_melody s x s1 hl hb
      subst this
      exact ih _ _ hl h

/-- A press edge that leads to the melody layer, when it completes, leaves the buffer
all black. -/
theorem layerSwitch_edge_melody (s : State) (b : Bool) (s1 : State) (hl : s.layer < LAYERS)
    (he : pressEdge s b = true) (hnew : (s.layer + 1) % 3 = MELODYLAYER)
    (h : layerSwitch s b = some s1) : s1.colors = blackBuffer := by
  have hb : b = false := by cases b <;> simp_all [pressEdge]
  have hp : s.rotaryPressed = false := by cases h : s.rotaryPressed <;> simp_all [pressEdge]
  subst hb
  simp only [layerSwitch, hp, Bool.not_false, if_true, nextLayer_eq s.layer hl,
    Option.bind_eq_bind] at h
  obtain ⟨s2, hloop, h⟩ := Option.bind_eq_some.mp h
  simp only [Option.some.injEq] at h
  subst h
  have := repopLoop_melody cellOrder _ s2 hnew hloop
  subst this
  rfl

theorem tickColor_seq (s : State) (inp : Input) (s' : State) (out : Output)
    (hT : Ticked s inp s' out) (hL : s'.layer < 2) (c r : Nat) (hc : c < COLUMNS)
    (hr : r < ROWS) :
    tickColor s inp s'.layer c r (seqColor s.keys s'.layer c r) = seqColor s'.keys s'.layer c r := by
  have hne : s'.layer ≠ MELODYLAYER := by simp only [MELODYLAYER]; omega
  have hk := hT.keys s'.layer c r hc hr
  rw [if_pos rfl, if_neg hne] at hk
  unfold tickColor seqColor
  rw [hk, if_neg hne]
  have hpal := palette_uint32 hL hr
  cases hp : pressed s inp c r <;> cases hkk : s.keys s'.layer c r <;>
    simp only [bne_self_eq_false, Bool.false_eq_true, if_false, if_true, hpal,
      Bool.bne_false, Bool.bne_true, Bool.not_false, Bool.not_true, Bool.true_bne,
      Bool.false_bne]

theorem colorsShowGrid_init : ColorsShowGrid State.init := by
  intro _ c r hc hr
  have hidx : c * ROWS + r < 12 := by simp only [COLUMNS, ROWS] at *; omega
  show blackBuffer[c * ROWS + r]? = _
  rw [blackBuffer_get hidx]
  rfl

theorem colorsShowGrid_tick (s : State) (inp : Input) (s' : State) (out : Output)
    (hwf : WF s) (hinv : ColorsShowGrid s) (h : tick s inp = some (s', out)) :
    ColorsShowGrid s' := by
  have hT := tick_spec _ _ _ _ hwf h
  intro hL c r hc hr
  cases he : pressEdge s inp.rotaryBtn with
  | true =>
    have hlay : s'.layer = (s.layer + 1) % 3 := by rw [hT.layer, he]; rfl
    obtain ⟨s1, hs1, hcol1⟩ := layerSwitch_edge_seq s inp.rotaryBtn hwf.layer_lt he
      (by rw [← hlay]; exact hL)
    rw [hT.colors s1 hs1 c r hc hr, hcol1 c r hc hr, ← hlay, Option.map_some',
      tickColor_seq s inp s' out hT hL c r hc hr]
  | false =>
    have hlay : s'.layer = s.layer := by rw [hT.layer, he]; rfl
    have hs1 := layerSwitch_noEdge s inp.rotaryBtn he
    have hold := hinv (by rw [← hlay]; exact hL) c r hc hr
    rw [hT.colors _ hs1 c r hc hr]
    show Option.map _ (s.colors[c * ROWS + r]?) = _
    rw [hold, ← hlay, Option.map_some', tickColor_seq s inp s' out hT hL c r hc hr]

theorem reachable_colorsShowGrid {s : State} (h : Reachable s) : ColorsShowGrid s := by
  induction h with
  | init => exact colorsShowGrid_init
  | step hs ht ih => exact colorsShowGrid_tick _ _ _ _ (reachable_wf hs) ih ht

theorem setKey_frame {k k' : Keys} {l i j : Nat} {v : Bool} (h : setKey k l i j v = some k') :
    ∀ a b c, a ≠ l → k' a b c = k a b c := by
  unfold setKey at h
  split at h
  · simp only [Option.some.injEq] at h
    subst h
    intro a b c ha
    simp [updKeys, ha]
  · simp at h

/-- The body of the cell loop leaves `layer` alone and writes toggles of the active layer
only, in whatever state it runs. -/
theorem cellStep_frame (rand : Nat → Nat) (s : State) (ij : Nat × Nat) (s' : State)
    (h : cellStep rand s ij = some s') :
    s'.layer = s.layer ∧ ∀ l c r, l ≠ s.layer → s'.keys l c r = s.keys l c r := by
  obtain ⟨i, j⟩ := ij
  by_cases hm : s.layer = MELODYLAYER
  · simp only [cellStep, hm, if_true, Option.bind_eq_bind] at h
    obtain ⟨c0, _, h⟩ := Option.bind_eq_some.mp h
    obtain ⟨colors1, _, h⟩ := Option.bind_eq_some.mp h
    obtain ⟨keys1, hk1, h⟩ := Option.bind_eq_some.mp h
    obtain ⟨m, _, h⟩ := Option.bind_eq_some.mp h
    rw [← hm] at hk1
    have hf1 := setKey_frame hk1
    split at h
    · simp only [Option.bind_eq_some] at h
      obtain ⟨d, _, h⟩ := h
      split at h
      · simp only [Option.bind_eq_some, Option.some.injEq] at h
        obtain ⟨colors2, _, deb, _, keys2, hk2, rfl⟩ := h
        have hf2 := setKey_frame hk2
        refine ⟨hm.symm, ?_⟩
        intro l c r hl
        show keys2 l c r = _
        rw [hf2 l c r (hm ▸ hl), hf1 l c r hl]
      · simp only [Option.some.injEq] at h
        subst h
        exact ⟨hm.symm, fun l c r hl => hf1 l c r hl⟩
    · simp only [Option.bind_eq_some, Option.some.injEq] at h
      obtain ⟨deb, _, rfl⟩ := h
      exact ⟨hm.symm, fun l c r hl => hf1 l c r hl⟩
  · simp only [cellStep, hm, if_false, Option.bind_eq_bind] at h
    obtain ⟨m, _, h⟩ := Option.bind_eq_some.mp h
    split at h
    · simp only [Option.bind_eq_some] at h
      obtain ⟨d, _, h⟩ := h
      split at h
      · obtain ⟨deb, _, h⟩ := Option.bind_eq_some.mp h
        obtain ⟨k, _, h⟩ := Option.bind_eq_some.mp h
        split at h
        · obtain ⟨colors1, _, h⟩ := Option.bind_eq_some.mp h
          obtain ⟨k2, _, h⟩ := Option.bind_eq_some.mp h
          obtain ⟨keys1, hk1, h⟩ := Option.bind_eq_some.mp h
          simp only [Option.some.injEq] at h
          subst h
          exact ⟨rfl, fun l c r hl => setKey_frame hk1 l c r hl⟩
        · obtain ⟨p, _, h⟩ := Option.bind_eq_some.mp h
          obtain ⟨colors1, _, h⟩ := Option.bind_eq_some.mp h
          obtain ⟨k2, _, h⟩ := Option.bind_eq_some.mp h
          obtain ⟨keys1, hk1, h⟩ := Option.bind_eq_some.mp h
          simp only [Option.some.injEq] at h
          subst h
          exact ⟨rfl, fun l c r hl => setKey_frame hk1 l c r hl⟩
      · simp only [Option.some.injEq] at h
        subst h
        exact ⟨rfl, fun _ _ _ _ => rfl⟩
    · simp only [Option.bind_eq_some, Option.some.injEq] at h
      obtain ⟨deb, _, rfl⟩ := h
      exact ⟨rfl, fun _ _ _ _ => rfl⟩

theorem cellPass_frame (rand : Nat → Nat) (s s' : State) (h : cellPass s rand = some s') :
    s'.layer = s.layer ∧ ∀ l c r, l ≠ s.layer → s'.keys l c r = s.keys l c r := by
  refine loopM_rel (cellStep rand)
    (fun a b => b.layer = a.layer ∧ ∀ l c r, l ≠ a.layer → b.keys l c r = a.keys l c r)
    (fun _ => ⟨rfl, fun _ _ _ _ => rfl⟩) ?_ (cellStep_frame rand) cellOrder s s' h
  intro a b c hab hbc
  refine ⟨by rw [hbc.1, hab.1], ?_⟩
  intro l x y hl
  rw [hbc.2 l x y (by rw [hab.1]; exact hl), hab.2 l x y hl]

theorem layerSwitch_keys (s : State) (b : Bool) (s1 : State) (h : layerSwitch s b = some s1) :
    s1.keys = s.keys := by
  unfold layerSwitch at h
  split at h
  · split at h
    · simp only [Option.bind_eq_bind, Option.bind_eq_some, Option.some.injEq] at h
      obtain ⟨s2, hloop, rfl⟩ := h
      exact (repopLoop_colorsOnly _ _ _ hloop).keys
    · simp only [Option.some.injEq] at h; subst h; rfl
  · simp only [Option.some.injEq] at h; subst h; rfl

theorem encoderStep_frame (s : State) (pos : Int) (s3 : State)
    (h : encoderStep s pos = some s3) : s3.layer = s.layer ∧ s3.keys = s.keys := by
  unfold encoderStep at h
  split at h
  · split at h
    · simp only [Option.bind_eq_bind, Option.bind_eq_some, Option.some.injEq] at h
      obtain ⟨q, _, rfl⟩ := h
      exact ⟨rfl, rfl⟩
    · simp only [Option.bind_eq_bind, Option.bind_eq_some, Option.some.injEq] at h
      obtain ⟨q, _, rfl⟩ := h
      exact ⟨rfl, rfl⟩
  · simp only [Option.some.injEq] at h; subst h; exact ⟨rfl, rfl⟩

theorem sequencerStep_frame (s : State) (now : Int) (s5 : State) (d : List MidiEvent)
    (h : sequencerStep s now = some (s5, d)) : s5.layer = s.layer ∧ s5.keys = s.keys := by
  unfold sequencerStep at h
  split at h
  · simp only [Option.bind_eq_bind, Option.bind_eq_some, Option.some.injEq, Prod.mk.injEq] at h
    obtain ⟨evs, _, rfl, _⟩ := h
    exact ⟨rfl, rfl⟩
  · simp only [Option.some.injEq, Prod.mk.injEq] at h
    obtain ⟨rfl, _⟩ := h
    exact ⟨rfl, rfl⟩

/-- The phases of a completed iteration, in whatever state it started. -/
theorem tick_phases (s : State) (inp : Input) (s' : State) (out : Output)
    (h : tick s inp = some (s', out)) :
    ∃ s1 s3 s4 drum,
      layerSwitch s inp.rotaryBtn = some s1 ∧
      encoderStep (getMatrixState s1 inp.matrix) inp.encoder = some s3 ∧
      cellPass s3 inp.rand = some s4 ∧
      sequencerStep s4 inp.now = some (s', drum) := by
  unfold tick at h
  simp only [Option.bind_eq_bind, Option.bind_eq_some] at h
  obtain ⟨s1, h1, s3, h3, s4, h4, ⟨s5, drum⟩, h5, melody, _, h⟩ := h
  simp only [Option.some.injEq, Prod.mk.injEq] at h
  obtain ⟨rfl, _⟩ := h
  exact ⟨s1, s3, s4, drum, h1, h3, h4, h5⟩

theorem seq_tick (s : State) (inp : Input) (hwf : WF s) (hL : s.layer < 2)
    (he : pressEdge s inp.rotaryBtn = false) (c r : Nat) (hc : c < COLUMNS) (hr : r < ROWS) :
    ∃ s' out, tick s inp = some (s', out) ∧ WF s' ∧ s'.layer = s.layer ∧
      s'.rotaryPressed = (!inp.rotaryBtn) ∧ s'.matrixDebounceBtn c r = inp.matrix c r ∧
      s'.keys s.layer c r = (s.keys s.layer c r != (inp.matrix c r && !s.matrixDebounceBtn c r)) := by
  obtain ⟨s', out, ht, hT⟩ := tick_total s inp hwf he
  have hlay : s'.layer = s.layer := by rw [hT.layer, he]; rfl
  have hne : s.layer ≠ MELODYLAYER := by simp only [MELODYLAYER]; omega
  refine ⟨s', out, ht, hT.wf, hlay, hT.rotaryPressed, hT.deb c r hc hr, ?_⟩
  rw [hT.keys s.layer c r hc hr, hlay, if_pos rfl, if_neg hne]
  rfl

theorem run_length :
    ∀ (inps : List Input) (s : State) (tr : List Step), run s inps = some tr →
      tr.length = inps.length := by
  intro inps
  induction inps with
  | nil => intro s tr h; simp only [run, Option.some.injEq] at h; subst h; rfl
  | cons inp rest ih =>
    intro s tr h
    obtain ⟨s', o, tr', _, hr', rfl⟩ := run_cons_some h
    simp only [List.length_cons, ih s' tr' hr']

theorem held_button_run :
    ∀ (inps : List Input) (s : State) (tr : List Step), WF s → s.rotaryPressed = true →
      (∀ inp ∈ inps, inp.rotaryBtn = false) → run s inps = some tr →
      ∀ st ∈ tr, pressEdge st.pre st.inp.rotaryBtn = false ∧ st.post.layer = s.layer := by
  intro inps
  induction inps with
  | nil => intro s tr _ _ _ h; simp only [run, Option.some.injEq] at h; subst h; simp
  | cons inp rest ih =>
    intro s tr hwf hp hb hrun st hst
    obtain ⟨s', o, tr', ht, hr', rfl⟩ := run_cons_some hrun
    have hT := tick_spec _ _ _ _ hwf ht
    have he : pressEdge s inp.rotaryBtn = false := by simp [pressEdge, hp]
    have hl : s'.layer = s.layer := by rw [hT.layer, he]; rfl
    have hp' : s'.rotaryPressed = true := by
      rw [hT.rotaryPressed, hb inp (List.mem_cons_self _ _)]; rfl
    rcases List.mem_cons.mp hst with rfl | hmem
    · exact ⟨he, hl⟩
    · have := ih s' tr' hT.wf hp' (fun i hi => hb i (List.mem_cons_of_mem _ hi)) hr' st hmem
      exact ⟨this.1, by rw [this.2, hl]⟩

theorem decay_bytes (x : Nat) :
    byteOf (decay x) 3 = byteOf x 3 / 2 ∧ byteOf (decay x) 2 = byteOf x 2 / 2 ∧
    byteOf (decay x) 1 = byteOf x 1 / 2 ∧ byteOf (decay x) 0 = 255 := by
  have hbytes := decay_eq x
  refine ⟨?_, ?_, ?_, ?_⟩ <;> (rw [hbytes]; simp only [byteOf]; norm_num; omega)

theorem byteOf_lt (x k : Nat) : byteOf x k < 256 := Nat.mod_lt _ (by norm_num)

theorem melodyEvents_eq_melodySpec (k : Keys) : melodyEvents k = melodySpec (k MELODYLAYER) := by
  unfold melodyEvents melodySpec
  rw [cellOrder_eq]
  rfl

theorem flatMap_congr_mem {α β : Type} (f g : α → List β) :
    ∀ (xs : List α), (∀ x ∈ xs, f x = g x) → xs.flatMap f = xs.flatMap g := by
  intro xs
  induction xs with
  | nil => intro _; rfl
  | cons x rest ih =>
    intro h
    simp only [List.flatMap_cons]
    rw [h x (List.mem_cons_self _ _), ih (fun y hy => h y (List.mem_cons_of_mem _ hy))]

theorem flatMap_pair_length {α β : Type} (p : α → Bool) (a b : α → β) :
    ∀ (xs : List α),
      (xs.flatMap fun x => if p x then [a x, b x] else []).length % 2 = 0 ∧
      (xs.flatMap fun x => if p x then [a x, b x] else []).length ≤ 2 * xs.length := by
  intro xs
  induction xs with
  | nil => simp
  | cons x rest ih =>
    obtain ⟨ih1, ih2⟩ := ih
    simp only [List.flatMap_cons, List.length_append, List.length_cons]
    generalize (rest.flatMap fun x => if p x then [a x, b x] else []).length = n at ih1 ih2 ⊢
    cases p x
    · simp only [Bool.false_eq_true, if_false, List.length_nil]; omega
    · simp only [if_true, List.length_cons, List.length_nil]; omega

theorem melodyEvents_congr (k k' : Keys)
    (h : ∀ c r, c < COLUMNS → r < ROWS → k MELODYLAYER c r = k' MELODYLAYER c r) :
    melodyEvents k = melodyEvents k' := by
  unfold melodyEvents
  apply flatMap_congr_mem
  intro x hx
  have hx' := (mem_cellOrder x.1 x.2).mp hx
  rw [h x.1 x.2 hx'.1 hx'.2]

theorem drumEvents_congr (k k' : Keys) (f : Nat) (hf : f < COLUMNS)
    (h : ∀ l, l < 2 → ∀ c r, c < COLUMNS → r < ROWS → k l c r = k' l c r) :
    drumEvents k f = drumEvents k' f := by
  unfold drumEvents
  apply flatMap_congr_mem
  intro x hx
  have hx' := (mem_drumOrder x.1 x.2).mp hx
  rw [h x.1 hx'.1 f x.2 hf hx'.2]

theorem held_latched_steps (c r : Nat) (hc : c < COLUMNS) (hr : r < ROWS) :
    ∀ (inps : List Input) (s : State) (tr : List Step), WF s →
      s.matrixDebounceBtn c r = true → (∀ inp ∈ inps, inp.matrix c r = true) →
      run s inps = some tr →
      (∀ st ∈ tr, WF st.pre ∧ st.pre.matrixDebounceBtn c r = true ∧
        st.inp.matrix c r = true ∧ Ticked st.pre st.inp st.post st.out) ∧
      ∀ l, l ≠ MELODYLAYER → (finalState s tr).keys l c r = s.keys l c r := by
  intro inps
  induction inps with
  | nil =>
    intro s tr _ _ _ h
    simp only [run, Option.some.injEq] at h
    subst h
    exact ⟨by simp, fun _ _ => rfl⟩
  | cons inp rest ih =>
    intro s tr hwf hd hheld hrun
    obtain ⟨s', o, tr', ht, hr', rfl⟩ := run_cons_some hrun
    have hT := tick_spec _ _ _ _ hwf ht
    have hraw := hheld inp (List.mem_cons_self _ _)
    have hd' : s'.matrixDebounceBtn c r = true := by rw [hT.deb c r hc hr]; exact hraw
    obtain ⟨h1, h2⟩ := ih s' tr' hT.wf hd' (fun i hi => hheld i (List.mem_cons_of_mem _ hi)) hr'
    refine ⟨?_, ?_⟩
    · intro st hst
      rcases List.mem_cons.mp hst with rfl | hmem
      · exact ⟨hwf, hd, hraw, hT⟩
      · exact h1 st hmem
    · intro l hl
      show (finalState s' tr').keys l c r = _
      rw [h2 l hl, hT.keys l c r hc hr]
      have hp : pressed s inp c r = false := by simp [pressed, hd]
      rw [hp, if_neg hl]
      split <;> simp

/-- Two states satisfying the loop invariant that agree on the toggle grids of layers 0
and 1, on `frame`, `lastTick`, `sleepBPM` and the last-seen encoder position, on inputs
with the same clock reading and encoder position and neither a press edge of the rotary
button nor a new press of a pad: both iterations complete with the same drum calls,
`frame` and `lastTick`. -/
theorem drum_independent_of_layer (a b : State) (ha : WF a) (hb : WF b) (ia ib : Input)
    (hk : ∀ l < 2, ∀ c < COLUMNS, ∀ r < ROWS, a.keys l c r = b.keys l c r)
    (hf : a.frame = b.frame) (hlt : a.lastTick = b.lastTick) (hsl : a.sleepBPM = b.sleepBPM)
    (hold : a.rotaryOldValue = b.rotaryOldValue)
    (hnow : ia.now = ib.now) (henc : ia.encoder = ib.encoder)
    (hea : pressEdge a ia.rotaryBtn = false) (heb : pressEdge b ib.rotaryBtn = false)
    (hna : ∀ c < COLUMNS, ∀ r < ROWS, pressed a ia c r = false)
    (hnb : ∀ c < COLUMNS, ∀ r < ROWS, pressed b ib c r = false) :
    ∃ a' oa b' ob, tick a ia = some (a', oa) ∧ tick b ib = some (b', ob) ∧
      oa.drum = ob.drum ∧ a'.frame = b'.frame ∧ a'.lastTick = b'.lastTick := by
  obtain ⟨a', oa, hta, hTa⟩ := tick_total a ia ha hea
  obtain ⟨b', ob, htb, hTb⟩ := tick_total b ib hb heb
  have hsl' : a'.sleepBPM = b'.sleepBPM := by
    rw [hTa.sleepBPM, hTb.sleepBPM, hsl, hold, henc]
  have hfr : a'.frame = b'.frame := by
    rw [hTa.frame, hTb.frame, hsl', hnow, hlt, hf]
  have hka : ∀ l, l < 2 → ∀ c r, c < COLUMNS → r < ROWS → a'.keys l c r = a.keys l c r := by
    intro l hl c r hc hr
    have hne : l ≠ MELODYLAYER := by simp only [MELODYLAYER]; omega
    rw [hTa.keys l c r hc hr, hna c hc r hr, if_neg hne]
    split <;> simp
  have hkb : ∀ l, l < 2 → ∀ c r, c < COLUMNS → r < ROWS → b'.keys l c r = b.keys l c r := by
    intro l hl c r hc hr
    have hne : l ≠ MELODYLAYER := by simp only [MELODYLAYER]; omega
    rw [hTb.keys l c r hc hr, hnb c hc r hr, if_neg hne]
    split <;> simp
  refine ⟨a', oa, b', ob, hta, htb, ?_, hfr, ?_⟩
  · rw [hTa.drum, hTb.drum, hsl', hnow, hlt, hfr]
    split
    · apply drumEvents_congr
      · have h0 := hTb.wf.frame_nonneg
        have h4 := hTb.wf.frame_lt
        simp only [COLUMNS]; omega
      · intro l hl c r hc hr
        rw [hka l hl c r hc hr, hkb l hl c r hc hr, hk l hl c hc r hr]
    · rfl
  · rw [hTa.lastTick, hTb.lastTick, hsl', hnow, hlt]

/-! ## C1: melody pads -/

/-- C1 (as amended): from a reachable state, let the raw state of pad `(c, r)` be true on
`n ≥ 1` consecutive iterations. On every completed run of them on which the melody layer
is the active layer throughout, the pad's `NoteOff`-then-`NoteOn` pair for pitch
`notesMelody[3*col+row]` on the melody channel is emitted on the first iteration if the
latch of the pad was clear before it (and not if it was already set), and nothing is
emitted for the pad on the other `n - 1` iterations: a held pad is not retriggered. When
the melody layer is active at the start and no iteration has a press edge of the rotary
button (the button up, or down with its latch set), the run completes and is such a run. -/
theorem melody_pair_on_new_press_only (s : State) (hs : Reachable s)
    (c r : Nat) (hc : c < COLUMNS) (hr : r < ROWS) (inps : List Input) (hne : inps ≠ [])
    (hheld : ∀ inp ∈ inps, inp.matrix c r = true) :
    (∀ tr, run s inps = some tr → (∀ st ∈ tr, st.post.layer = MELODYLAYER) →
      tr.map (fun st => callsFor (melodyPitch c r) st.out.melody) =
        (if s.matrixDebounceBtn c r then [] else melodyPair (melodyPitch c r)) ::
          List.replicate (inps.length - 1) []) ∧
    (s.layer = MELODYLAYER → noPressEdge s.rotaryPressed inps = true →
      ∃ tr, run s inps = some tr ∧ (∀ st ∈ tr, st.post.layer = MELODYLAYER) ∧
        tr.map (fun st => callsFor (melodyPitch c r) st.out.melody) =
          (if s.matrixDebounceBtn c r then [] else melodyPair (melodyPitch c r)) ::
            List.replicate (inps.length - 1) []) := by
  have hwf := reachable_wf hs
  have hA : ∀ tr, run s inps = some tr → (∀ st ∈ tr, st.post.layer = MELODYLAYER) →
      tr.map (fun st => callsFor (melodyPitch c r) st.out.melody) =
        (if s.matrixDebounceBtn c r then [] else melodyPair (melodyPitch c r)) ::
          List.replicate (inps.length - 1) [] := by
    intro tr hrun hlay
    cases inps with
    | nil => exact absurd rfl hne
    | cons inp rest =>
      obtain ⟨s', o, tr', ht, hr', rfl⟩ := run_cons_some hrun
      have hT := tick_spec _ _ _ _ hwf ht
      have hl' : s'.layer = MELODYLAYER := hlay ⟨s, inp, s', o⟩ (List.mem_cons_self _ _)
      have hd' : s'.matrixDebounceBtn c r = true := by
        rw [hT.deb c r hc hr]; exact hheld inp (List.mem_cons_self _ _)
      have hobs := melody_latched_silent c r hc hr rest s' tr' hT.wf hd'
        (fun i hi => hheld i (List.mem_cons_of_mem _ hi)) hr'
        (fun st hst => hlay st (List.mem_cons_of_mem _ hst))
      have hk : s'.keys MELODYLAYER c r = !s.matrixDebounceBtn c r := by
        rw [hT.keys MELODYLAYER c r hc hr, hl']
        simp [pressed, hheld inp (List.mem_cons_self _ _)]
      simp only [List.map_cons, hobs, List.length_cons, Nat.add_sub_cancel]
      rw [hT.melody, callsFor_melodyEvents _ c r hc hr, hk]
      cases s.matrixDebounceBtn c r <;> rfl
  refine ⟨hA, ?_⟩
  intro hl hno
  obtain ⟨tr, hrun, hlay⟩ := melody_run_total inps s hwf hl hno
  exact ⟨tr, hrun, hlay, hA tr hrun hlay⟩

/-- Witness for C1: on the melody layer, with the rotary button still held from the press
that led there and then released, pad `(0, 0)` is held for three iterations: one pair for
pitch 53, on the first. -/
theorem melody_pair_on_new_press_only_witness :
    ((∀ tr, run melodyHeldState
          [{ padDown 0 0 with rotaryBtn := false }, { padDown 0 0 with rotaryBtn := false },
           padDown 0 0] = some tr →
        (∀ st ∈ tr, st.post.layer = MELODYLAYER) →
        tr.map (fun st => callsFor (melodyPitch 0 0) st.out.melody) =
          (if melodyHeldState.matrixDebounceBtn 0 0 then [] else melodyPair (melodyPitch 0 0)) ::
            List.replicate
              ([{ padDown 0 0 with rotaryBtn := false }, { padDown 0 0 with rotaryBtn := false },
                padDown 0 0].length - 1) []) ∧
      (melodyHeldState.layer = MELODYLAYER →
        noPressEdge melodyHeldState.rotaryPressed
          [{ padDown 0 0 with rotaryBtn := false }, { padDown 0 0 with rotaryBtn := false },
           padDown 0 0] = true →
        ∃ tr, run melodyHeldState
            [{ padDown 0 0 with rotaryBtn := false }, { padDown 0 0 with rotaryBtn := false },
             padDown 0 0] = some tr ∧
          (∀ st ∈ tr, st.post.layer = MELODYLAYER) ∧
          tr.map (fun st => callsFor (melodyPitch 0 0) st.out.melody) =
            (if melodyHeldState.matrixDebounceBtn 0 0 then []
              else melodyPair (melodyPitch 0 0)) ::
              List.replicate
                ([{ padDown 0 0 with rotaryBtn := false },
                  { padDown 0 0 with rotaryBtn := false }, padDown 0 0].length - 1) [])) ∧
    (melodyHeldState.layer = MELODYLAYER ∧ melodyHeldState.rotaryPressed = true ∧
      noPressEdge melodyHeldState.rotaryPressed
        [{ padDown 0 0 with rotaryBtn := false }, { padDown 0 0 with rotaryBtn := false },
         padDown 0 0] = true) ∧
    (run melodyHeldState
        [{ padDown 0 0 with rotaryBtn := false }, { padDown 0 0 with rotaryBtn := false },
         padDown 0 0]).map
      (fun tr => tr.map fun st => (st.post.layer, callsFor (melodyPitch 0 0) st.out.melody))
      = some [(2, [MidiEvent.NoteOff 0 1 53 64, MidiEvent.NoteOn 0 1 53 64]), (2, []),
              (2, [])] :=
  ⟨melody_pair_on_new_press_only melodyHeldState melodyHeldState_reachable 0 0 (by decide)
    (by decide) [{ padDown 0 0 with rotaryBtn := false }, { padDown 0 0 with rotaryBtn := false },
      padDown 0 0] (by simp) (by decide), by decide, by decide⟩

/-- C1, counterexample: from the initial state the rotary button is pressed twice, which
makes the melody layer active, and pad `(0, 0)` is then held for three consecutive
iterations. The pair for pitch 53 is emitted on the first of the three only, so it is not
true that each iteration on which the pad reads pressed carries the pair. -/
theorem melody_retrigger_counterexample :
    (run State.init [rotaryDown, idle, rotaryDown, idle, padDown 0 0, padDown 0 0, padDown 0 0]).map
      (fun tr => tr.map fun st => (st.post.layer, st.inp.matrix 0 0, st.out.melody)) =
    some [(1, false, []), (1, false, []), (2, false, []), (2, false, []),
          (2, true, [MidiEvent.NoteOff 0 1 53 64, MidiEvent.NoteOn 0 1 53 64]),
          (2, true, []), (2, true, [])] ∧
    ¬ ∀ st ∈ runD State.init
        [rotaryDown, idle, rotaryDown, idle, padDown 0 0, padDown 0 0, padDown 0 0],
      st.inp.matrix 0 0 = true → callsFor 53 st.out.melody = melodyPair 53 := by
  decide

/-! ## C2: encoder -/

/-- C2 (as amended): from a reachable state with step interval `s.sleepBPM`, two consecutive
iterations on each of which the encoder position read is strictly lower than the last-seen
position leave `sleepBPM` equal to `min 1000 (s.sleepBPM + 20)` (an increase of 20 in total,
capped at 1000), and `bpm` is the decimal rendering of `60000 / sleepBPM`. -/
theorem encoder_lower_twice (s : State) (hs : Reachable s) (i1 i2 : Input) (tr : List Step)
    (hrun : run s [i1, i2] = some tr)
    (hlow : ∀ st ∈ tr, st.inp.encoder < st.pre.rotaryOldValue) :
    (finalState s tr).sleepBPM = min 1000 (s.sleepBPM + 20) ∧
    (finalState s tr).bpm = Itoa (Int.tdiv 60000 (finalState s tr).sleepBPM) := by
  have hwf := reachable_wf hs
  obtain ⟨s1, o1, tr1, ht1, hr1, rfl⟩ := run_cons_some hrun
  obtain ⟨s2, o2, tr2, ht2, hr2, rfl⟩ := run_cons_some hr1
  simp only [run, Option.some.injEq] at hr2
  subst hr2
  have hT1 := tick_spec _ _ _ _ hwf ht1
  have hT2 := tick_spec _ _ _ _ hT1.wf ht2
  have hl1 : i1.encoder < s.rotaryOldValue := hlow ⟨s, i1, s1, o1⟩ (by simp)
  have hl2 : i2.encoder < s1.rotaryOldValue := hlow ⟨s1, i2, s2, o2⟩ (by simp)
  refine ⟨?_, hT2.wf.bpm_eq⟩
  show s2.sleepBPM = _
  rw [hT2.sleepBPM, hT1.sleepBPM]
  have h1 := hwf.sleep_ge
  have h2 := hwf.sleep_le
  simp only [sleepAfter, if_neg (ne_of_lt hl1), if_pos hl1, if_neg (ne_of_lt hl2), if_pos hl2]
  omega

/-- Witness for C2: the encoder reads -1 and then -2 from the initial state. -/
theorem encoder_lower_twice_witness :
    (finalState State.init (runD State.init [turned (-1), turned (-2)])).sleepBPM
        = min 1000 (State.init.sleepBPM + 20) ∧
    (finalState State.init (runD State.init [turned (-1), turned (-2)])).bpm
        = Itoa (Int.tdiv 60000
            (finalState State.init (runD State.init [turned (-1), turned (-2)])).sleepBPM) :=
  encoder_lower_twice State.init Reachable.init (turned (-1)) (turned (-2))
    (runD State.init [turned (-1), turned (-2)]) (run_eq_runD (by decide)) (by decide)

/-- C2, counterexample: from the initial state (interval 425) the encoder reads -1 and then
-2, each strictly lower than the position seen last. The interval ends at 445, not at
`max 100 (425 - 20) = 405`. -/
theorem encoder_decrease_counterexample :
    (run State.init [turned (-1), turned (-2)]).map
      (fun tr => tr.map fun st =>
        (decide (st.inp.encoder < st.pre.rotaryOldValue), st.post.sleepBPM, st.post.bpm)) =
      some [(true, 435, "137"), (true, 445, "134")] ∧
    (445 : Int) ≠ max 100 (425 - 20) := by
  decide

/-! ## C3: totality -/

/-- C3, failing input: after `staleFlagInputs` the rotary button is released, pressed
(layer 1), released and pressed again. The first eight iterations complete; the ninth
switches to the melody layer while `keys[2][0][0]` is still set and indexes the six-entry
palette at `2*3+0`, which panics. -/
theorem tick_panics_on_reentering_melody :
    (run State.init (staleFlagInputs ++ [idle, rotaryDown, idle])).isSome = true ∧
    (run State.init (staleFlagInputs ++ [idle, rotaryDown, idle, rotaryDown])).isSome = false ∧
    (tick (finalState State.init (runD State.init (staleFlagInputs ++ [idle, rotaryDown, idle])))
      rotaryDown).isSome = false ∧
    btnColors[toUint8 (MELODYLAYER * 3 + toUint8 0)]? = none := by
  decide

/-! ## C4: melody flags -/

/-- C4, failing input: the last iteration of `staleFlagInputs` runs on layer 0 with pad
`(0, 0)` reading false, yet `keys[2][0][0]` is still true at its end and the melody pair
for pitch 53 is emitted; the same happens on the following iteration with nothing touched. -/
theorem melody_flag_carried_forward :
    (run State.init (staleFlagInputs ++ [idle])).map
      (fun tr => tr.map fun st =>
        (st.post.layer, st.inp.matrix 0 0, st.post.keys MELODYLAYER 0 0, st.out.melody)) =
    some [(1, false, false, []), (1, false, false, []), (2, false, false, []),
          (2, true, true, [MidiEvent.NoteOff 0 1 53 64, MidiEvent.NoteOn 0 1 53 64]),
          (0, false, true, [MidiEvent.NoteOff 0 1 53 64, MidiEvent.NoteOn 0 1 53 64]),
          (0, false, true, [MidiEvent.NoteOff 0 1 53 64, MidiEvent.NoteOn 0 1 53 64])] := by
  decide

/-! ## C5: edge latch -/

/-- C5: from a reachable state in which the latch of cell `(c, r)` is clear, let the raw
state of the cell be true on the `n ≥ 1` iterations `held` and false on the next one, `rel`,
whatever the rotary button, the other pads, the encoder and the clock do, and let these
iterations complete. Then the new-press guard of the cell pass holds for the cell on the
first iteration and on no other, the latch is clear again after the releasing iteration,
and on every one of these iterations the guard is what decides the effect on the active
layer: the cell's melody flag equals it, or the cell's toggle is flipped exactly when it
holds. -/
theorem edge_latch_once (s : State) (hs : Reachable s) (c r : Nat) (hc : c < COLUMNS)
    (hr : r < ROWS) (held : List Input) (rel : Input) (tr : List Step)
    (hlatch : s.matrixDebounceBtn c r = false) (hne : held ≠ [])
    (hheld : ∀ inp ∈ held, inp.matrix c r = true) (hrel : rel.matrix c r = false)
    (hrun : run s (held ++ [rel]) = some tr) :
    tr.map (fun st => pressed st.pre st.inp c r) = true :: List.replicate held.length false ∧
    (finalState s tr).matrixDebounceBtn c r = false ∧
    ∀ st ∈ tr, st.post.keys st.post.layer c r =
      if st.post.layer = MELODYLAYER then pressed st.pre st.inp c r
      else (st.pre.keys st.post.layer c r != pressed st.pre st.inp c r) := by
  have hwf := reachable_wf hs
  refine ⟨?_, ?_, ?_⟩
  · cases held with
    | nil => exact absurd rfl hne
    | cons inp rest =>
      obtain ⟨s', o, tr', ht, hr', rfl⟩ := run_cons_some hrun
      have hT := tick_spec _ _ _ _ hwf ht
      have hd' : s'.matrixDebounceBtn c r = true := by
        rw [hT.deb c r hc hr]; exact hheld inp (List.mem_cons_self _ _)
      obtain ⟨h1, _⟩ := latched_run c r hc hr rel hrel rest s' tr' hT.wf hd'
        (fun i hi => hheld i (List.mem_cons_of_mem _ hi)) hr'
      rw [List.map_cons, h1]
      simp [pressed, hlatch, hheld inp (List.mem_cons_self _ _)]
  · cases held with
    | nil => exact absurd rfl hne
    | cons inp rest =>
      obtain ⟨s', o, tr', ht, hr', rfl⟩ := run_cons_some hrun
      have hT := tick_spec _ _ _ _ hwf ht
      have hd' : s'.matrixDebounceBtn c r = true := by
        rw [hT.deb c r hc hr]; exact hheld inp (List.mem_cons_self _ _)
      exact (latched_run c r hc hr rel hrel rest s' tr' hT.wf hd'
        (fun i hi => hheld i (List.mem_cons_of_mem _ hi)) hr').2
  · intro st hst
    have hT := (run_steps hwf _ _ hrun st hst).2
    rw [hT.keys _ c r hc hr, if_pos rfl]

/-- Witness for C5: pad `(1, 2)` held for three iterations and released, from the initial
state, while the rotary button is pressed on the second of them. -/
theorem edge_latch_once_witness :
    (runD State.init ([padDown 1 2, { padDown 1 2 with rotaryBtn := false }, padDown 1 2]
        ++ [idle])).map (fun st => pressed st.pre st.inp 1 2)
      = true :: List.replicate
          [padDown 1 2, { padDown 1 2 with rotaryBtn := false }, padDown 1 2].length false ∧
    (finalState State.init (runD State.init
        ([padDown 1 2, { padDown 1 2 with rotaryBtn := false }, padDown 1 2] ++ [idle]))
      ).matrixDebounceBtn 1 2 = false ∧
    ∀ st ∈ runD State.init
        ([padDown 1 2, { padDown 1 2 with rotaryBtn := false }, padDown 1 2] ++ [idle]),
      st.post.keys st.post.layer 1 2 =
        if st.post.layer = MELODYLAYER then pressed st.pre st.inp 1 2
        else (st.pre.keys st.post.layer 1 2 != pressed st.pre st.inp 1 2) :=
  edge_latch_once State.init Reachable.init 1 2 (by decide) (by decide)
    [padDown 1 2, { padDown 1 2 with rotaryBtn := false }, padDown 1 2] idle _ (by decide)
    (by simp) (by decide) (by decide) (run_eq_runD (by decide))

/-! ## C6: tempo clamp -/

/-- C6: starting from the initial state (step interval 425), after any finite sequence of
completed iterations, whatever the encoder positions and the other inputs are, `sleepBPM`
lies in `[100, 1000]`, at the end of the run and after every iteration of it. -/
theorem tempo_clamped (inps : List Input) (tr : List Step)
    (hrun : run State.init inps = some tr) :
    (100 ≤ (finalState State.init tr).sleepBPM ∧ (finalState State.init tr).sleepBPM ≤ 1000) ∧
    ∀ st ∈ tr, 100 ≤ st.post.sleepBPM ∧ st.post.sleepBPM ≤ 1000 := by
  have hwf := reachable_wf (run_reachable Reachable.init inps tr hrun)
  refine ⟨⟨hwf.sleep_ge, hwf.sleep_le⟩, ?_⟩
  intro st hst
  have hT := (run_steps wf_init _ _ hrun st hst).2
  exact ⟨hT.wf.sleep_ge, hT.wf.sleep_le⟩

/-- Witness for C6: the encoder jumps to 5, to 50 and back to -7. -/
theorem tempo_clamped_witness :
    (100 ≤ (finalState State.init
        (runD State.init [turned 5, turned 50, turned (-7)])).sleepBPM ∧
      (finalState State.init
        (runD State.init [turned 5, turned 50, turned (-7)])).sleepBPM ≤ 1000) ∧
    ∀ st ∈ runD State.init [turned 5, turned 50, turned (-7)],
      100 ≤ st.post.sleepBPM ∧ st.post.sleepBPM ≤ 1000 :=
  tempo_clamped [turned 5, turned 50, turned (-7)] _ (run_eq_runD (by decide))

/-! ## C7: BPM label -/

/-- C7: in every reachable state, the initial one included, `bpm` is the decimal rendering
of `60000 / sleepBPM` (Go's integer division, which here is also the floor), `sleepBPM` is
not zero, and the encoder phase run on any position completes, so neither of its two
divisions is by zero, and leaves the label consistent again. -/
theorem bpm_label_consistent (s : State) (hs : Reachable s) :
    s.bpm = Itoa (Int.tdiv 60000 s.sleepBPM) ∧
    Int.tdiv 60000 s.sleepBPM = 60000 / s.sleepBPM ∧
    s.sleepBPM ≠ 0 ∧
    goDiv 60000 s.sleepBPM = some (Int.tdiv 60000 s.sleepBPM) ∧
    ∀ pos : Int, ∃ s3, encoderStep s pos = some s3 ∧ s3.sleepBPM ≠ 0 ∧
      s3.bpm = Itoa (Int.tdiv 60000 s3.sleepBPM) := by
  have hwf := reachable_wf hs
  have h1 := hwf.sleep_ge
  have h2 := hwf.sleep_le
  have hne : s.sleepBPM ≠ 0 := by omega
  refine ⟨hwf.bpm_eq, Int.tdiv_eq_ediv (by decide) (by omega), hne, by simp [goDiv, hne], ?_⟩
  intro pos
  obtain ⟨s3, h3, hsl, hbpm, _⟩ := encoderStep_spec s pos h1 h2 hwf.bpm_eq
  refine ⟨s3, h3, ?_, hbpm⟩
  rw [hsl]
  simp only [sleepAfter]
  split <;> [skip; split] <;> omega

/-- Witness for C7: the initial state, interval 425 and label "141". -/
theorem bpm_label_consistent_witness :
    State.init.bpm = Itoa (Int.tdiv 60000 State.init.sleepBPM) ∧
    Int.tdiv 60000 State.init.sleepBPM = 60000 / State.init.sleepBPM ∧
    State.init.sleepBPM ≠ 0 ∧
    goDiv 60000 State.init.sleepBPM = some (Int.tdiv 60000 State.init.sleepBPM) ∧
    ∀ pos : Int, ∃ s3, encoderStep State.init pos = some s3 ∧ s3.sleepBPM ≠ 0 ∧
      s3.bpm = Itoa (Int.tdiv 60000 s3.sleepBPM) :=
  bpm_label_consistent State.init Reachable.init

/-! ## C8: sequencer clock -/

/-- C8: on every completed iteration from a reachable state, with `now - lastTick` the
`int64` difference the code computes (the plain difference whenever that fits in 64 bits)
and `sleepBPM` the interval the comparison of line 233 reads, that is the one left by this
iteration's encoder phase: if `now - lastTick >= sleepBPM` then `frame` becomes
`(frame + 1) mod 4`, which differs from the old frame, and `lastTick` becomes `now`;
otherwise `frame` and `lastTick` are unchanged and no drum `NoteOn` is emitted. The frame
is in `{0, 1, 2, 3}` before and after. -/
theorem sequencer_clock_step (s : State) (hs : Reachable s) (inp : Input) (s' : State)
    (out : Output) (h : tick s inp = some (s', out)) :
    (sub64 inp.now s.lastTick ≥ s'.sleepBPM →
      s'.frame = (s.frame + 1) % 4 ∧ s'.frame ≠ s.frame ∧ s'.lastTick = inp.now) ∧
    (¬ sub64 inp.now s.lastTick ≥ s'.sleepBPM →
      s'.frame = s.frame ∧ s'.lastTick = s.lastTick ∧ out.drum = []) ∧
    (0 ≤ s.frame ∧ s.frame < 4 ∧ 0 ≤ s'.frame ∧ s'.frame < 4) ∧
    (-9223372036854775808 ≤ inp.now - s.lastTick → inp.now - s.lastTick < 9223372036854775808 →
      sub64 inp.now s.lastTick = inp.now - s.lastTick) := by
  have hwf := reachable_wf hs
  have hT := tick_spec _ _ _ _ hwf h
  have h0 := hwf.frame_nonneg
  have h4 := hwf.frame_lt
  refine ⟨?_, ?_, ⟨h0, h4, hT.wf.frame_nonneg, hT.wf.frame_lt⟩, sub64_of_fits _ _⟩
  · intro hadv
    have hf : s'.frame = (s.frame + 1) % 4 := by rw [hT.frame, if_pos hadv]
    refine ⟨hf, ?_, by rw [hT.lastTick, if_pos hadv]⟩
    rw [hf]; omega
  · intro hadv
    exact ⟨by rw [hT.frame, if_neg hadv], by rw [hT.lastTick, if_neg hadv],
      by rw [hT.drum, if_neg hadv]⟩

/-- Witness for C8: the first iteration with the clock at 425 ms. -/
theorem sequencer_clock_step_witness :
    (sub64 (clockAt 425).now State.init.lastTick ≥ (tickD State.init (clockAt 425)).1.sleepBPM →
      (tickD State.init (clockAt 425)).1.frame = (State.init.frame + 1) % 4 ∧
      (tickD State.init (clockAt 425)).1.frame ≠ State.init.frame ∧
      (tickD State.init (clockAt 425)).1.lastTick = (clockAt 425).now) ∧
    (¬ sub64 (clockAt 425).now State.init.lastTick
        ≥ (tickD State.init (clockAt 425)).1.sleepBPM →
      (tickD State.init (clockAt 425)).1.frame = State.init.frame ∧
      (tickD State.init (clockAt 425)).1.lastTick = State.init.lastTick ∧
      (tickD State.init (clockAt 425)).2.drum = []) ∧
    (0 ≤ State.init.frame ∧ State.init.frame < 4 ∧
      0 ≤ (tickD State.init (clockAt 425)).1.frame ∧
      (tickD State.init (clockAt 425)).1.frame < 4) ∧
    (-9223372036854775808 ≤ (clockAt 425).now - State.init.lastTick →
      (clockAt 425).now - State.init.lastTick < 9223372036854775808 →
      sub64 (clockAt 425).now State.init.lastTick = (clockAt 425).now - State.init.lastTick) :=
  sequencer_clock_step State.init Reachable.init (clockAt 425) _ _ (tick_eq_tickD (by decide))

/-! ## C9: drum calls -/

/-- C9: on a completed iteration from a reachable state on which the clock advances, with
`f` the frame after the advance, the drum calls are exactly `drumSpec`: for layer `l` in
(0, 1) then row `r` in (0, 1, 2), a `NoteOn` on channel 10 with pitch `notes[3*l+r]` and
velocity 64 for each `keys[l][f][r]` that is true after the cell pass. The grid of layer 2
does not contribute: replacing it by any other grid leaves the calls unchanged. -/
theorem drum_emission_content (s : State) (hs : Reachable s) (inp : Input) (s' : State)
    (out : Output) (h : tick s inp = some (s', out))
    (hadv : sub64 inp.now s.lastTick ≥ s'.sleepBPM) :
    s'.frame = (s.frame + 1) % 4 ∧
    out.drum = drumSpec s'.keys s'.frame.toNat ∧
    ∀ g : Nat → Nat → Bool,
      drumSpec (fun l c r => if l = MELODYLAYER then g c r else s'.keys l c r) s'.frame.toNat
        = drumSpec s'.keys s'.frame.toNat := by
  have hT := tick_spec _ _ _ _ (reachable_wf hs) h
  refine ⟨by rw [hT.frame, if_pos hadv], ?_, ?_⟩
  · rw [hT.drum, if_pos hadv, drumEvents_eq_drumSpec]
  · intro g
    unfold drumSpec
    apply List.filterMap_congr
    intro lr hlr
    have hne : lr.1 ≠ MELODYLAYER := by
      simp only [List.mem_cons, List.mem_singleton, List.not_mem_nil, or_false] at hlr
      rcases hlr with rfl | rfl | rfl | rfl | rfl | rfl <;> decide
    simp only [if_neg hne]

/-- Witness for C9: with cell `(1, 2)` of layer 0 on, the advance to frame 1 emits the
`NoteOn` with pitch 64 on channel 10. -/
theorem drum_emission_content_witness :
    ((tickD congaState (clockAt 425)).1.frame = (congaState.frame + 1) % 4 ∧
      (tickD congaState (clockAt 425)).2.drum
        = drumSpec (tickD congaState (clockAt 425)).1.keys
            (tickD congaState (clockAt 425)).1.frame.toNat ∧
      ∀ g : Nat → Nat → Bool,
        drumSpec (fun l c r =>
            if l = MELODYLAYER then g c r else (tickD congaState (clockAt 425)).1.keys l c r)
            (tickD congaState (clockAt 425)).1.frame.toNat
          = drumSpec (tickD congaState (clockAt 425)).1.keys
              (tickD congaState (clockAt 425)).1.frame.toNat) ∧
    (tickD congaState (clockAt 425)).1.frame = 1 ∧
    (tickD congaState (clockAt 425)).2.drum = [MidiEvent.NoteOn 0 10 64 64] :=
  ⟨drum_emission_content congaState congaState_reachable (clockAt 425) _ _
    (tick_eq_tickD (by decide)) (by decide), by decide, by decide⟩

/-! ## C10: round trip -/

/-- C10, failing input: `staleFlagState` is reachable with layer 0 active; from it the rotary
button is pressed three times, each press followed by a release, with no pad down. The run
does not complete: the second press switches to the melody layer and panics. -/
theorem round_trip_panics :
    (run State.init staleFlagInputs).isSome = true ∧
    staleFlagState.layer = 0 ∧
    (threePresses.all fun inp => cellOrder.all fun ij => !inp.matrix ij.1 ij.2) = true ∧
    (run staleFlagState threePresses).isSome = false ∧
    (run staleFlagState (threePresses.take 3)).isSome = true := by
  decide

/-! ## C11: toggle frame -/

/-- C11: for every state and every input, a completed iteration whose active layer after
the layer-switch step is `L` (it is the layer of the state it ends in) changes no toggle
cell of a layer other than `L`; in particular on the melody layer the grids of layers 0 and
1 are unchanged whatever pads are pressed; and the layer-switch step changes no toggle
cell at all. -/
theorem toggle_frame (s : State) (inp : Input) (s' : State) (out : Output)
    (h : tick s inp = some (s', out)) :
    (∃ s1, layerSwitch s inp.rotaryBtn = some s1 ∧ s1.keys = s.keys ∧ s'.layer = s1.layer) ∧
    (∀ l c r, l ≠ s'.layer → s'.keys l c r = s.keys l c r) ∧
    (s'.layer = MELODYLAYER →
      ∀ c r, s'.keys 0 c r = s.keys 0 c r ∧ s'.keys 1 c r = s.keys 1 c r) := by
  obtain ⟨s1, s3, s4, drum, h1, h3, h4, h5⟩ := tick_phases s inp s' out h
  have hk1 := layerSwitch_keys s inp.rotaryBtn s1 h1
  have hf3 := encoderStep_frame _ _ _ h3
  have hf4 := cellPass_frame _ _ _ h4
  have hf5 := sequencerStep_frame _ _ _ _ h5
  have hl3 : s3.layer = s1.layer := hf3.1
  have hk3 : s3.keys = s.keys := by rw [hf3.2]; exact hk1
  have hlay : s'.layer = s1.layer := by rw [hf5.1, hf4.1, hl3]
  have hframe : ∀ l c r, l ≠ s'.layer → s'.keys l c r = s.keys l c r := by
    intro l c r hl
    rw [hf5.2, hf4.2 l c r (by rw [hl3, ← hlay]; exact hl), hk3]
  refine ⟨⟨s1, h1, hk1, hlay⟩, hframe, ?_⟩
  intro hm c r
  exact ⟨hframe 0 c r (by rw [hm]; decide), hframe 1 c r (by rw [hm]; decide)⟩

/-- Witness for C11: on the melody layer pad `(0, 0)` is struck. -/
theorem toggle_frame_witness :
    (∃ s1, layerSwitch melodyState (padDown 0 0).rotaryBtn = some s1 ∧
      s1.keys = melodyState.keys ∧ (tickD melodyState (padDown 0 0)).1.layer = s1.layer) ∧
    (∀ l c r, l ≠ (tickD melodyState (padDown 0 0)).1.layer →
      (tickD melodyState (padDown 0 0)).1.keys l c r = melodyState.keys l c r) ∧
    ((tickD melodyState (padDown 0 0)).1.layer = MELODYLAYER →
      ∀ c r, (tickD melodyState (padDown 0 0)).1.keys 0 c r = melodyState.keys 0 c r ∧
        (tickD melodyState (padDown 0 0)).1.keys 1 c r = melodyState.keys 1 c r) :=
  toggle_frame melodyState (padDown 0 0) _ _ (tick_eq_tickD (by decide))

/-! ## C12: double toggle -/

/-- C12: from a reachable state on a sequencer layer, for a cell whose latch is clear, the
four iterations press, release, press, release on that cell, none of them with a press
edge of the rotary button (the layer stays), complete; the stored boolean of the cell is
flipped by the first press, keeps that value through the release, is flipped back by the
second press and ends at its original value. -/
theorem double_toggle (s : State) (hs : Reachable s) (hL : s.layer < 2) (c r : Nat)
    (hc : c < COLUMNS) (hr : r < ROWS) (hlatch : s.matrixDebounceBtn c r = false)
    (p1 r1 p2 r2 : Input)
    (hp1 : p1.matrix c r = true) (hr1 : r1.matrix c r = false)
    (hp2 : p2.matrix c r = true) (hr2 : r2.matrix c r = false)
    (he1 : pressEdge s p1.rotaryBtn = false)
    (he2 : r1.rotaryBtn = true ∨ p1.rotaryBtn = false)
    (he3 : p2.rotaryBtn = true ∨ r1.rotaryBtn = false)
    (he4 : r2.rotaryBtn = true ∨ p2.rotaryBtn = false) :
    ∃ tr, run s [p1, r1, p2, r2] = some tr ∧
      tr.map (fun st => st.post.layer) = [s.layer, s.layer, s.layer, s.layer] ∧
      tr.map (fun st => st.post.keys s.layer c r) =
        [!s.keys s.layer c r, !s.keys s.layer c r, s.keys s.layer c r, s.keys s.layer c r] ∧
      (finalState s tr).keys s.layer c r = s.keys s.layer c r := by
  have hwf := reachable_wf hs
  obtain ⟨s1, o1, ht1, hwf1, hl1, hrp1, hd1, hk1⟩ := seq_tick s p1 hwf hL he1 c r hc hr
  have he2' : pressEdge s1 r1.rotaryBtn = false := by
    simp only [pressEdge, hrp1]; rcases he2 with h | h <;> simp [h]
  obtain ⟨s2, o2, ht2, hwf2, hl2, hrp2, hd2, hk2⟩ :=
    seq_tick s1 r1 hwf1 (by rw [hl1]; exact hL) he2' c r hc hr
  have he3' : pressEdge s2 p2.rotaryBtn = false := by
    simp only [pressEdge, hrp2]; rcases he3 with h | h <;> simp [h]
  obtain ⟨s3, o3, ht3, hwf3, hl3, hrp3, hd3, hk3⟩ :=
    seq_tick s2 p2 hwf2 (by rw [hl2, hl1]; exact hL) he3' c r hc hr
  have he4' : pressEdge s3 r2.rotaryBtn = false := by
    simp only [pressEdge, hrp3]; rcases he4 with h | h <;> simp [h]
  obtain ⟨s4, o4, ht4, hwf4, hl4, hrp4, hd4, hk4⟩ :=
    seq_tick s3 r2 hwf3 (by rw [hl3, hl2, hl1]; exact hL) he4' c r hc hr
  rw [hl1] at hk2
  rw [hl2, hl1] at hk3
  rw [hl3, hl2, hl1] at hk4
  have e1 : s1.keys s.layer c r = !s.keys s.layer c r := by
    rw [hk1, hp1, hlatch]; cases s.keys s.layer c r <;> rfl
  have e2 : s2.keys s.layer c r = !s.keys s.layer c r := by
    rw [hk2, hr1, e1]; cases s.keys s.layer c r <;> rfl
  have e3 : s3.keys s.layer c r = s.keys s.layer c r := by
    rw [hk3, hp2, hd2, hr1, e2]; cases s.keys s.layer c r <;> rfl
  have e4 : s4.keys s.layer c r = s.keys s.layer c r := by
    rw [hk4, hr2, e3]; cases s.keys s.layer c r <;> rfl
  refine ⟨_, run_cons_of ht1 (run_cons_of ht2 (run_cons_of ht3 (run_cons_of ht4 rfl))), ?_, ?_, ?_⟩
  · simp only [List.map_cons, List.map_nil, hl1, hl2, hl3, hl4]
  · simp only [List.map_cons, List.map_nil, e1, e2, e3, e4]
  · exact e4

/-- Witness for C12: cell `(1, 2)` of layer 0, from the initial state. -/
theorem double_toggle_witness :
    ∃ tr, run State.init [padDown 1 2, idle, padDown 1 2, idle] = some tr ∧
      tr.map (fun st => st.post.layer) =
        [State.init.layer, State.init.layer, State.init.layer, State.init.layer] ∧
      tr.map (fun st => st.post.keys State.init.layer 1 2) =
        [!State.init.keys State.init.layer 1 2, !State.init.keys State.init.layer 1 2,
         State.init.keys State.init.layer 1 2, State.init.keys State.init.layer 1 2] ∧
      (finalState State.init tr).keys State.init.layer 1 2
        = State.init.keys State.init.layer 1 2 :=
  double_toggle State.init Reachable.init (by decide) 1 2 (by decide) (by decide) (by decide)
    (padDown 1 2) idle (padDown 1 2) idle (by decide) (by decide) (by decide) (by decide)
    (by decide) (by decide) (by decide) (by decide)

/-! ## C13: layer rotation -/

/-- C13: in every reachable state the active layer is 0, 1 or 2. On every completed
iteration from such a state, the layer becomes `(layer + 1) mod 3`, a different layer,
when the rotary button reads pressed while its latch is clear, and is unchanged
otherwise, and the latch records the level read; so press edges lead from 0 to 1, from 1
to 2 and from 2 to 0. When the button is held for `n ≥ 1` consecutive completed iterations
starting with the latch clear, the first of them is the only press edge and the layer
after each of them is `(layer + 1) mod 3`: it advances exactly once. The advance itself
never fails: on a press edge the repopulation loop, the only part of the layer-switch step
that can panic, already runs with the layer advanced. -/
theorem layer_rotation (s : State) (hs : Reachable s) :
    s.layer < 3 ∧
    (∀ inp s' out, tick s inp = some (s', out) →
      (inp.rotaryBtn = false ∧ s.rotaryPressed = false →
        s'.layer = (s.layer + 1) % 3 ∧ s'.layer ≠ s.layer) ∧
      (¬ (inp.rotaryBtn = false ∧ s.rotaryPressed = false) → s'.layer = s.layer) ∧
      s'.rotaryPressed = (!inp.rotaryBtn) ∧ s'.layer < 3 ∧
      (inp.rotaryBtn = false ∧ s.rotaryPressed = false →
        (s.layer = 0 → s'.layer = 1) ∧ (s.layer = 1 → s'.layer = 2) ∧
        (s.layer = 2 → s'.layer = 0))) ∧
    (∀ inps tr, inps ≠ [] → s.rotaryPressed = false →
      (∀ inp ∈ inps, inp.rotaryBtn = false) → run s inps = some tr →
      tr.map (fun st => pressEdge st.pre st.inp.rotaryBtn)
        = true :: List.replicate (inps.length - 1) false ∧
      tr.map (fun st => st.post.layer) = List.replicate inps.length ((s.layer + 1) % 3)) ∧
    (s.rotaryPressed = false →
      layerSwitch s false =
        (loopM repopStep cellOrder
          { s with layer := (s.layer + 1) % 3, colors := blackBuffer }).bind
          fun s2 => some { s2 with rotaryPressed := true }) := by
  have hwf := reachable_wf hs
  have hl3 : s.layer < 3 := hwf.layer_lt
  refine ⟨hl3, ?_, ?_, ?_⟩
  rotate_left 2
  · intro hp
    unfold layerSwitch
    have hp' : (!s.rotaryPressed) = true := by simp [hp]
    simp only [Bool.not_false, if_true, hp', nextLayer_eq s.layer hwf.layer_lt,
      Option.bind_eq_bind]
  · intro inp s' out h
    have hT := tick_spec _ _ _ _ hwf h
    have hl3' : s'.layer < 3 := hT.wf.layer_lt
    have hedge : ∀ hcond : inp.rotaryBtn = false ∧ s.rotaryPressed = false,
        s'.layer = (s.layer + 1) % 3 := by
      intro hcond
      rw [hT.layer]
      simp [pressEdge, hcond.1, hcond.2]
    refine ⟨fun hcond => ⟨hedge hcond, by rw [hedge hcond]; omega⟩, ?_, hT.rotaryPressed,
      hl3', fun hcond => ⟨fun h0 => by rw [hedge hcond, h0], fun h1 => by rw [hedge hcond, h1],
        fun h2 => by rw [hedge hcond, h2]⟩⟩
    intro hcond
    rw [hT.layer]
    have : pressEdge s inp.rotaryBtn = false := by
      cases hb : inp.rotaryBtn <;> cases hp : s.rotaryPressed <;> simp_all [pressEdge]
    rw [this]; rfl
  · intro inps tr hne hp hb hrun
    cases inps with
    | nil => exact absurd rfl hne
    | cons inp rest =>
      obtain ⟨s', o, tr', ht, hr', rfl⟩ := run_cons_some hrun
      have hT := tick_spec _ _ _ _ hwf ht
      have hbtn := hb inp (List.mem_cons_self _ _)
      have he : pressEdge s inp.rotaryBtn = true := by simp [pressEdge, hp, hbtn]
      have hl : s'.layer = (s.layer + 1) % 3 := by rw [hT.layer, he]; rfl
      have hp' : s'.rotaryPressed = true := by rw [hT.rotaryPressed, hbtn]; rfl
      have hrest := held_button_run rest s' tr' hT.wf hp'
        (fun i hi => hb i (List.mem_cons_of_mem _ hi)) hr'
      have hlen : tr'.length = rest.length := run_length rest s' tr' hr'
      constructor
      · simp only [List.map_cons, he, List.length_cons, Nat.add_sub_cancel]
        congr 1
        rw [← hlen]
        exact List.eq_replicate_iff.mpr ⟨by simp, fun b hb' => by
          obtain ⟨st, hst, rfl⟩ := List.mem_map.mp hb'
          exact (hrest st hst).1⟩
      · simp only [List.map_cons, hl, List.length_cons, List.replicate_succ]
        congr 1
        rw [← hlen]
        exact List.eq_replicate_iff.mpr ⟨by simp, fun b hb' => by
          obtain ⟨st, hst, rfl⟩ := List.mem_map.mp hb'
          rw [(hrest st hst).2, hl]⟩

/-- Witness for C13: the initial state, and three presses of the rotary button from it,
which visit the layers 1, 2 and 0. -/
theorem layer_rotation_witness :
    (State.init.layer < 3 ∧
    (∀ inp s' out, tick State.init inp = some (s', out) →
      (inp.rotaryBtn = false ∧ State.init.rotaryPressed = false →
        s'.layer = (State.init.layer + 1) % 3 ∧ s'.layer ≠ State.init.layer) ∧
      (¬ (inp.rotaryBtn = false ∧ State.init.rotaryPressed = false) →
        s'.layer = State.init.layer) ∧
      s'.rotaryPressed = (!inp.rotaryBtn) ∧ s'.layer < 3 ∧
      (inp.rotaryBtn = false ∧ State.init.rotaryPressed = false →
        (State.init.layer = 0 → s'.layer = 1) ∧ (State.init.layer = 1 → s'.layer = 2) ∧
        (State.init.layer = 2 → s'.layer = 0))) ∧
    (∀ inps tr, inps ≠ [] → State.init.rotaryPressed = false →
      (∀ inp ∈ inps, inp.rotaryBtn = false) → run State.init inps = some tr →
      tr.map (fun st => pressEdge st.pre st.inp.rotaryBtn)
        = true :: List.replicate (inps.length - 1) false ∧
      tr.map (fun st => st.post.layer)
        = List.replicate inps.length ((State.init.layer + 1) % 3)) ∧
      (State.init.rotaryPressed = false →
        layerSwitch State.init false =
          (loopM repopStep cellOrder
            { State.init with layer := (State.init.layer + 1) % 3, colors := blackBuffer }).bind
            fun s2 => some { s2 with rotaryPressed := true })) ∧
    (run State.init [rotaryDown, idle, rotaryDown, idle, rotaryDown, idle]).map
      (fun tr => tr.map fun st => st.post.layer) = some [1, 1, 2, 2, 0, 0] :=
  ⟨layer_rotation State.init Reachable.init, by decide⟩

/-! ## C14: sequencer colours -/

/-- C14: at the end of any completed iteration from a reachable state whose active layer
`L` is a sequencer layer, the colour buffer, which is what is written to the LED strip,
has 12 entries, and for every cell the entry at index `col*3+row` is `btnColors[L*3+row]`
if `keys[L][col][row]` is true and black otherwise; this includes the iteration on which
the layer is switched to `L`. The same holds in the reachable state the iteration started
from, the initial state included, when its layer is a sequencer layer. -/
theorem sequencer_colours (s : State) (hs : Reachable s) (inp : Input) (s' : State)
    (out : Output) (h : tick s inp = some (s', out)) (hL : s'.layer < 2) :
    s'.colors.length = 12 ∧ out.leds = s'.colors ∧
    (∀ c r, c < COLUMNS → r < ROWS →
      s'.colors[c * ROWS + r]? =
        some (if s'.keys s'.layer c r then paletteColor (s'.layer * 3 + r) else black)) ∧
    (s.layer < 2 → ∀ c r, c < COLUMNS → r < ROWS →
      s.colors[c * ROWS + r]? =
        some (if s.keys s.layer c r then paletteColor (s.layer * 3 + r) else black)) := by
  have hwf := reachable_wf hs
  have hT := tick_spec _ _ _ _ hwf h
  have hinv := reachable_colorsShowGrid (Reachable.step hs h)
  exact ⟨hT.wf.colors_len, hT.leds, fun c r hc hr => hinv hL c r hc hr,
    fun hl c r hc hr => reachable_colorsShowGrid hs hl c r hc hr⟩

/-- Witness for C14: from the initial state the rotary button is pressed, which switches
to layer 1, while pad `(1, 2)` is struck: entry 5 of the buffer is pink, the others black. -/
theorem sequencer_colours_witness :
    ((tickD State.init { padDown 1 2 with rotaryBtn := false }).1.colors.length = 12 ∧
      (tickD State.init { padDown 1 2 with rotaryBtn := false }).2.leds
        = (tickD State.init { padDown 1 2 with rotaryBtn := false }).1.colors ∧
      (∀ c r, c < COLUMNS → r < ROWS →
        (tickD State.init { padDown 1 2 with rotaryBtn := false }).1.colors[c * ROWS + r]? =
          some (if (tickD State.init { padDown 1 2 with rotaryBtn := false }).1.keys
                (tickD State.init { padDown 1 2 with rotaryBtn := false }).1.layer c r
            then paletteColor
              ((tickD State.init { padDown 1 2 with rotaryBtn := false }).1.layer * 3 + r)
            else black)) ∧
      (State.init.layer < 2 → ∀ c r, c < COLUMNS → r < ROWS →
        State.init.colors[c * ROWS + r]? =
          some (if State.init.keys State.init.layer c r
            then paletteColor (State.init.layer * 3 + r) else black))) ∧
    (tickD State.init { padDown 1 2 with rotaryBtn := false }).1.layer = 1 ∧
    (tickD State.init { padDown 1 2 with rotaryBtn := false }).2.leds
      = [black, black, black, black, black, pink, black, black, black, black, black, black] :=
  ⟨sequencer_colours State.init Reachable.init { padDown 1 2 with rotaryBtn := false } _ _
    (tick_eq_tickD (by decide)) (by decide), by decide, by decide⟩

/-! ## C15: melody colours -/

/-- C15: on a completed iteration from a reachable state that ends with the melody layer
active, for every cell, with `old` the colour the buffer holds for it when the cell pass
starts (the colour left by the previous iteration, or black when this iteration switched
to the melody layer): the new colour is the value `rand.Uint32()` returned for the cell if
the cell has a new press edge on this iteration, and `decay old` otherwise (not pressed, or
held with the latch set); each of the three upper bytes of `decay old` is the
corresponding byte of `old` shifted right by one bit and its low byte is `0xFF`. -/
theorem melody_colour_policy (s : State) (hs : Reachable s) (inp : Input) (s' : State)
    (out : Output) (h : tick s inp = some (s', out)) (hl : s'.layer = MELODYLAYER)
    (c r : Nat) (hc : c < COLUMNS) (hr : r < ROWS) :
    ∃ s1 old, layerSwitch s inp.rotaryBtn = some s1 ∧ s1.colors[c * ROWS + r]? = some old ∧
      (pressEdge s inp.rotaryBtn = false → s.colors[c * ROWS + r]? = some old) ∧
      (pressEdge s inp.rotaryBtn = true → old = black) ∧
      s'.colors[c * ROWS + r]? =
        some (if pressed s inp c r then toUint32 (inp.rand (c * ROWS + r)) else decay old) ∧
      byteOf (decay old) 3 = byteOf old 3 / 2 ∧ byteOf (decay old) 2 = byteOf old 2 / 2 ∧
      byteOf (decay old) 1 = byteOf old 1 / 2 ∧ byteOf (decay old) 0 = 0xFF := by
  have hwf := reachable_wf hs
  have hT := tick_spec _ _ _ _ hwf h
  obtain ⟨s1, _, _, _, h1, _, _, _⟩ := tick_phases s inp s' out h
  have hspec := layerSwitch_spec s inp.rotaryBtn s1 hwf.layer_lt h1
  have hlen1 : s1.colors.length = 12 := by
    rw [hspec.2.2.2.2.2.2.2.2.2.2]
    split
    · rfl
    · exact hwf.colors_len
  have hidx : c * ROWS + r < s1.colors.length := by
    rw [hlen1]; simp only [COLUMNS, ROWS] at *; omega
  have hget : s1.colors[c * ROWS + r]? = some (s1.colors[c * ROWS + r]) :=
    List.getElem?_eq_getElem hidx
  have hbytes := decay_eq (s1.colors[c * ROWS + r])
  refine ⟨s1, s1.colors[c * ROWS + r], h1, hget, ?_, ?_, ?_, ?_, ?_, ?_, ?_⟩
  · intro he
    have := layerSwitch_noEdge s inp.rotaryBtn he
    rw [this] at h1
    simp only [Option.some.injEq] at h1
    rw [← hget, ← h1]
  · intro he
    have hnew : (s.layer + 1) % 3 = MELODYLAYER := by
      rw [← hl, hT.layer, he]; rfl
    have hb := layerSwitch_edge_melody s inp.rotaryBtn s1 hwf.layer_lt he hnew h1
    have hidx' : c * ROWS + r < 12 := by simp only [COLUMNS, ROWS] at *; omega
    have hg := blackBuffer_get hidx'
    rw [← hb, hget] at hg
    exact Option.some.inj hg
  · rw [hT.colors s1 h1 c r hc hr, hget, hl, Option.map_some']
    simp only [tickColor, if_true]
  · rw [hbytes]; simp only [byteOf]; norm_num; omega
  · rw [hbytes]; simp only [byteOf]; norm_num; omega
  · rw [hbytes]; simp only [byteOf]; norm_num; omega
  · rw [hbytes]; simp only [byteOf]; norm_num; omega

/-- Witness for C15: on the melody layer pad `(0, 0)` is struck and `rand.Uint32()` returns
`0x12345678` for it. -/
theorem melody_colour_policy_witness :
    (∃ s1 old,
      layerSwitch melodyState
        ({ padDown 0 0 with rand := fun _ => 0x12345678 } : Input).rotaryBtn = some s1 ∧
      s1.colors[0 * ROWS + 0]? = some old ∧
      (pressEdge melodyState ({ padDown 0 0 with rand := fun _ => 0x12345678 } : Input).rotaryBtn
          = false → melodyState.colors[0 * ROWS + 0]? = some old) ∧
      (pressEdge melodyState ({ padDown 0 0 with rand := fun _ => 0x12345678 } : Input).rotaryBtn
          = true → old = black) ∧
      (tickD melodyState { padDown 0 0 with rand := fun _ => 0x12345678 }).1.colors[0 * ROWS + 0]? =
        some (if pressed melodyState { padDown 0 0 with rand := fun _ => 0x12345678 } 0 0
          then toUint32 (({ padDown 0 0 with rand := fun _ => 0x12345678 } : Input).rand
            (0 * ROWS + 0))
          else decay old) ∧
      byteOf (decay old) 3 = byteOf old 3 / 2 ∧ byteOf (decay old) 2 = byteOf old 2 / 2 ∧
      byteOf (decay old) 1 = byteOf old 1 / 2 ∧ byteOf (decay old) 0 = 0xFF) ∧
    (tickD melodyState { padDown 0 0 with rand := fun _ => 0x12345678 }).2.leds
      = [0x12345678, black, black, black, black, black, black, black, black, black, black,
         black] :=
  ⟨melody_colour_policy melodyState melodyState_reachable
    { padDown 0 0 with rand := fun _ => 0x12345678 } _ _ (tick_eq_tickD (by decide))
    (by decide) 0 0 (by decide) (by decide), by decide⟩

/-! ## C16: colour decay -/

/-- C16: every 32-bit colour `c` is made of its four bytes, and the attenuation maps each
of the three colour channels (bytes 3, 2 and 1) to a value no larger than before, maps a channel that is 0 to
0, always yields low byte `0xFF` and a 32-bit value, and applied 8 times in a row yields
exactly black (`0x000000FF`), which the attenuation maps to itself. -/
theorem decay_saturates (c : Nat) (hc : c < 4294967296) :
    c = byteOf c 3 * 16777216 + byteOf c 2 * 65536 + byteOf c 1 * 256 + byteOf c 0 ∧
    (byteOf (decay c) 3 ≤ byteOf c 3 ∧ byteOf (decay c) 2 ≤ byteOf c 2 ∧
      byteOf (decay c) 1 ≤ byteOf c 1) ∧
    ((byteOf c 3 = 0 → byteOf (decay c) 3 = 0) ∧ (byteOf c 2 = 0 → byteOf (decay c) 2 = 0) ∧
      (byteOf c 1 = 0 → byteOf (decay c) 1 = 0)) ∧
    byteOf (decay c) 0 = 0xFF ∧ decay c < 4294967296 ∧
    Nat.iterate decay 8 c = black ∧ decay black = black := by
  obtain ⟨b3, b2, b1, b0⟩ := decay_bytes c
  have l3 := byteOf_lt c 3
  have l2 := byteOf_lt c 2
  have l1 := byteOf_lt c 1
  refine ⟨?_, ⟨by omega, by omega, by omega⟩, ⟨fun h => by omega, fun h => by omega,
    fun h => by omega⟩, b0, ?_, ?_, by decide⟩
  · simp only [byteOf]; norm_num; omega
  · rw [decay_eq]; omega
  · show decay (decay (decay (decay (decay (decay (decay (decay c))))))) = black
    obtain ⟨c3, c2, c1, _⟩ := decay_bytes (decay c)
    obtain ⟨d3, d2, d1, _⟩ := decay_bytes (decay (decay c))
    obtain ⟨e3, e2, e1, _⟩ := decay_bytes (decay (decay (decay c)))
    obtain ⟨f3, f2, f1, _⟩ := decay_bytes (decay (decay (decay (decay c))))
    obtain ⟨g3, g2, g1, _⟩ := decay_bytes (decay (decay (decay (decay (decay c)))))
    obtain ⟨h3, h2, h1, _⟩ := decay_bytes (decay (decay (decay (decay (decay (decay c))))))
    rw [decay_eq (decay (decay (decay (decay (decay (decay (decay c)))))))]
    simp only [black]
    omega

/-- Witness for C16: white at full intensity, `0xFFFFFFFF`. -/
theorem decay_saturates_witness :
    0xFFFFFFFF = byteOf 0xFFFFFFFF 3 * 16777216 + byteOf 0xFFFFFFFF 2 * 65536
      + byteOf 0xFFFFFFFF 1 * 256 + byteOf 0xFFFFFFFF 0 ∧
    (byteOf (decay 0xFFFFFFFF) 3 ≤ byteOf 0xFFFFFFFF 3 ∧
      byteOf (decay 0xFFFFFFFF) 2 ≤ byteOf 0xFFFFFFFF 2 ∧
      byteOf (decay 0xFFFFFFFF) 1 ≤ byteOf 0xFFFFFFFF 1) ∧
    ((byteOf 0xFFFFFFFF 3 = 0 → byteOf (decay 0xFFFFFFFF) 3 = 0) ∧
      (byteOf 0xFFFFFFFF 2 = 0 → byteOf (decay 0xFFFFFFFF) 2 = 0) ∧
      (byteOf 0xFFFFFFFF 1 = 0 → byteOf (decay 0xFFFFFFFF) 1 = 0)) ∧
    byteOf (decay 0xFFFFFFFF) 0 = 0xFF ∧ decay 0xFFFFFFFF < 4294967296 ∧
    Nat.iterate decay 8 0xFFFFFFFF = black ∧ decay black = black :=
  decay_saturates 0xFFFFFFFF (by decide)

/-! ## C17: melody calls -/

/-- C17: on every completed iteration from a reachable state the melody calls are exactly
`melodySpec` of the melody-layer flags as they stand after the cell pass: row by row and
within a row column by column, a `NoteOff` immediately followed by a `NoteOn` on channel 1
with pitch `notesMelody[3*col+row]` and velocity 64 for each cell whose flag is true, and
nothing for the others. The list has even length at most 24, and it does not depend on the
clock: with any other clock reading the iteration completes as well and emits the same
melody calls. -/
theorem melody_emission_content (s : State) (hs : Reachable s) (inp : Input) (s' : State)
    (out : Output) (h : tick s inp = some (s', out)) :
    out.melody = melodySpec (s'.keys MELODYLAYER) ∧
    out.melody.length % 2 = 0 ∧ out.melody.length ≤ 24 ∧
    ∀ t : Int, ∃ s'' out'', tick s { inp with now := t } = some (s'', out'') ∧
      out''.melody = out.melody := by
  have hwf := reachable_wf hs
  have hT := tick_spec _ _ _ _ hwf h
  have hlen := flatMap_pair_length (fun ij : Nat × Nat => s'.keys MELODYLAYER ij.1 ij.2)
    (fun ij => MidiEvent.NoteOff 0 MELODYCHANNEL (notesMelody.getD (3 * ij.1 + ij.2) 0) 64)
    (fun ij => MidiEvent.NoteOn 0 MELODYCHANNEL (notesMelody.getD (3 * ij.1 + ij.2) 0) 64)
    cellOrder
  have hco : cellOrder.length = 12 := by rw [cellOrder_eq]; rfl
  rw [hco] at hlen
  refine ⟨by rw [hT.melody, melodyEvents_eq_melodySpec], ?_, ?_, ?_⟩
  · rw [hT.melody]; exact hlen.1
  · rw [hT.melody]; exact hlen.2
  · intro t
    obtain ⟨s1, _, _, _, h1, _, _, _⟩ := tick_phases s inp s' out h
    obtain ⟨s'', out'', ht'', hT''⟩ := tick_of_switch s { inp with now := t } s1 hwf h1
    refine ⟨s'', out'', ht'', ?_⟩
    rw [hT''.melody, hT.melody]
    apply melodyEvents_congr
    intro c r hc hr
    have hlay : s''.layer = s'.layer := by rw [hT''.layer, hT.layer]
    rw [hT''.keys MELODYLAYER c r hc hr, hT.keys MELODYLAYER c r hc hr, hlay]
    rfl

/-- Witness for C17: on the melody layer pads `(0, 0)` and `(1, 0)` are struck together. -/
theorem melody_emission_content_witness :
    ((tickD melodyState { idle with matrix := fun c r => decide (c < 2 ∧ r = 0) }).2.melody
        = melodySpec ((tickD melodyState
            { idle with matrix := fun c r => decide (c < 2 ∧ r = 0) }).1.keys MELODYLAYER) ∧
      (tickD melodyState
        { idle with matrix := fun c r => decide (c < 2 ∧ r = 0) }).2.melody.length % 2 = 0 ∧
      (tickD melodyState
        { idle with matrix := fun c r => decide (c < 2 ∧ r = 0) }).2.melody.length ≤ 24 ∧
      ∀ t : Int, ∃ s'' out'',
        tick melodyState
          { ({ idle with matrix := fun c r => decide (c < 2 ∧ r = 0) } : Input) with now := t }
          = some (s'', out'') ∧
        out''.melody = (tickD melodyState
          { idle with matrix := fun c r => decide (c < 2 ∧ r = 0) }).2.melody) ∧
    (tickD melodyState { idle with matrix := fun c r => decide (c < 2 ∧ r = 0) }).2.melody
      = [MidiEvent.NoteOff 0 1 53 64, MidiEvent.NoteOn 0 1 53 64,
         MidiEvent.NoteOff 0 1 55 64, MidiEvent.NoteOn 0 1 55 64] :=
  ⟨melody_emission_content melodyState melodyState_reachable
    { idle with matrix := fun c r => decide (c < 2 ∧ r = 0) } _ _ (tick_eq_tickD (by decide)),
    by decide⟩

/-! ## C18: held pad -/

/-- C18: from a reachable state in which the latch of cell `(c, r)` is set, on any run of
completed iterations on all of which the raw state of the cell is true, whatever the
rotary button does (a press edge that changes the layer on the first of them, or on any
other), the cell is never taken as newly pressed and its latch stays set: on every
iteration its toggles on layers 0 and 1 are unchanged, and when the melody layer is active
its melody flag is false and its colour is the attenuation of the colour it had when the
cell pass started, not a random value. At the end of the run its toggles on layers 0 and 1
are what they were at the start. -/
theorem held_pad_ignored (s : State) (hs : Reachable s) (c r : Nat) (hc : c < COLUMNS)
    (hr : r < ROWS) (hlatch : s.matrixDebounceBtn c r = true) (inps : List Input)
    (tr : List Step) (hheld : ∀ inp ∈ inps, inp.matrix c r = true)
    (hrun : run s inps = some tr) :
    (∀ st ∈ tr,
      pressed st.pre st.inp c r = false ∧ st.post.matrixDebounceBtn c r = true ∧
      (∀ l, l ≠ MELODYLAYER → st.post.keys l c r = st.pre.keys l c r) ∧
      (st.post.layer = MELODYLAYER →
        st.post.keys MELODYLAYER c r = false ∧
        ∀ s1, layerSwitch st.pre st.inp.rotaryBtn = some s1 →
          st.post.colors[c * ROWS + r]? = (s1.colors[c * ROWS + r]?).map decay)) ∧
    ∀ l, l ≠ MELODYLAYER → (finalState s tr).keys l c r = s.keys l c r := by
  obtain ⟨h1, h2⟩ := held_latched_steps c r hc hr inps s tr (reachable_wf hs) hlatch hheld hrun
  refine ⟨?_, h2⟩
  intro st hst
  obtain ⟨_, hd, hraw, hT⟩ := h1 st hst
  have hp : pressed st.pre st.inp c r = false := by simp [pressed, hd]
  refine ⟨hp, by rw [hT.deb c r hc hr]; exact hraw, ?_, ?_⟩
  · intro l hl
    rw [hT.keys l c r hc hr, hp, if_neg hl]
    split <;> simp
  · intro hm
    refine ⟨by rw [hT.keys MELODYLAYER c r hc hr, hm, hp]; rfl, ?_⟩
    intro s1 hs1
    rw [hT.colors s1 hs1 c r hc hr, hm]
    congr 1
    funext old
    simp [tickColor, hp]

/-- Witness for C18: pad `(1, 2)` is struck on layer 0 and held while the rotary button is
pressed, released and pressed again, which leads to layer 1 and then to the melody layer. -/
theorem held_pad_ignored_witness :
    (∀ st ∈ runD congaState [{ padDown 1 2 with rotaryBtn := false }, padDown 1 2,
        { padDown 1 2 with rotaryBtn := false }, padDown 1 2],
      pressed st.pre st.inp 1 2 = false ∧ st.post.matrixDebounceBtn 1 2 = true ∧
      (∀ l, l ≠ MELODYLAYER → st.post.keys l 1 2 = st.pre.keys l 1 2) ∧
      (st.post.layer = MELODYLAYER →
        st.post.keys MELODYLAYER 1 2 = false ∧
        ∀ s1, layerSwitch st.pre st.inp.rotaryBtn = some s1 →
          st.post.colors[1 * ROWS + 2]? = (s1.colors[1 * ROWS + 2]?).map decay)) ∧
    ∀ l, l ≠ MELODYLAYER →
      (finalState congaState (runD congaState [{ padDown 1 2 with rotaryBtn := false },
        padDown 1 2, { padDown 1 2 with rotaryBtn := false }, padDown 1 2])).keys l 1 2
        = congaState.keys l 1 2 :=
  held_pad_ignored congaState congaState_reachable 1 2 (by decide) (by decide) (by decide)
    [{ padDown 1 2 with rotaryBtn := false }, padDown 1 2,
     { padDown 1 2 with rotaryBtn := false }, padDown 1 2] _ (by decide)
    (run_eq_runD (by decide))

/-! ## C19: drum calls and the active layer -/

/-- C19: let two states satisfying the loop invariant agree on the toggle grids of layers 0
and 1, on `frame`, `lastTick` and `sleepBPM`, and differ only in the active layer, the
colour buffer and the melody flags. On a tick with the same clock reading and the same
encoder position (the same input), with no press edge of the rotary button and no new
press of a pad, both iterations complete, emit the same list of drum calls and end with
the same `frame` and `lastTick`. -/
theorem drum_output_layer_blind (a b : State) (ha : WF a) (hb : WF b)
    (hab : DifferOnlyInLayerView a b) (inp : Input)
    (he : pressEdge a inp.rotaryBtn = false)
    (hn : ∀ c < COLUMNS, ∀ r < ROWS, pressed a inp c r = false) :
    ∃ a' oa b' ob, tick a inp = some (a', oa) ∧ tick b inp = some (b', ob) ∧
      oa.drum = ob.drum ∧ a'.frame = b'.frame ∧ a'.lastTick = b'.lastTick := by
  have heb : pressEdge b inp.rotaryBtn = false := by
    simp only [pressEdge, ← hab.rotaryPressed]; exact he
  have hnb : ∀ c < COLUMNS, ∀ r < ROWS, pressed b inp c r = false := by
    intro c hc r hr
    simp only [pressed, ← hab.matrixDebounceBtn c hc r hr]
    exact hn c hc r hr
  exact drum_independent_of_layer a b ha hb inp inp hab.keys hab.frame hab.lastTick
    hab.sleepBPM hab.rotaryOldValue rfl rfl he heb hn hnb

/-- Witness for C19: with cell `(1, 2)` of layer 0 on, once on layer 0 and once on the
melody layer, the advance to frame 1 emits the `NoteOn` with pitch 64 in both. -/
theorem drum_output_layer_blind_witness :
    (∃ a' oa b' ob, tick congaIdleState (clockAt 425) = some (a', oa) ∧
      tick congaMelodyState (clockAt 425) = some (b', ob) ∧
      oa.drum = ob.drum ∧ a'.frame = b'.frame ∧ a'.lastTick = b'.lastTick) ∧
    congaIdleState.layer = 0 ∧ congaMelodyState.layer = 2 ∧
    congaIdleState.colors ≠ congaMelodyState.colors ∧
    (tickD congaIdleState (clockAt 425)).2.drum = [MidiEvent.NoteOn 0 10 64 64] ∧
    (tickD congaMelodyState (clockAt 425)).2.drum = [MidiEvent.NoteOn 0 10 64 64] :=
  ⟨drum_output_layer_blind congaIdleState congaMelodyState
    (reachable_wf (run_reachable Reachable.init _ _ (run_eq_runD (by decide))))
    (reachable_wf (run_reachable Reachable.init _ _ (run_eq_runD (by decide))))
    ⟨by decide, by decide, by decide, by decide, by decide, by decide, by decide, by decide,
      by decide⟩
    (clockAt 425) (by decide) (by decide),
    by decide, by decide, by decide, by decide, by decide⟩

end Midikeeb
